import Mathlib

/-!
# Verification of the pyplan search engine core

A shallow embedding, in Lean 4, of the core data structures and algorithms of
the `pyplan` repository (a generic state-space search engine written in
Python), together with theorems settling the frozen specification claims.

The embedding follows the Python source module by module:

* `pyplan/nodes.py`, `pyplan/graph.py` — graph nodes, relationship tests,
  the `SearchSpace` frontier (parallel sorted lists maintained with
  `bisect_right` / `bisect_left`);
* `pyplan/store.py` — the in-memory key-value collection (a Python `dict`)
  and the `ChainScopeStore` of chained scopes built on `collections.ChainMap`;
* `pyplan/builtins.py` — the execution `Frame`, in particular the lazy
  write-scope materialization `Frame.w_context`;
* `pyplan/solver.py` — the solver loop `Solver.eval` / `Solver.step` /
  `Solver.select`, with the embedder-supplied capabilities (solution
  predicate, evaluator, test, execute, expand) abstracted as function
  parameters that may raise.

Python `dict`s are modelled as association lists with update-in-place
semantics (`dictPut`), Python `list`s as Lean lists, Python exceptions as
`Except`/`Option` results.  The CPython iterator semantics of iterating a
list while removing elements from it — which `Solver.select` does — is
modelled index-exactly in `selectFwdAux` / `selectRevAux`.
-/

namespace Pyplan

/-! ## Python dictionaries

A Python `dict` is modelled as an association list in insertion order:
`d[k] = v` updates the existing entry in place when `k` is present and
appends a new entry otherwise, exactly like CPython (which preserves
insertion order and keeps the slot of an updated key). -/

/-- Lookup in a Python-`dict` model: first (and, for lists built with
`dictPut`, only) entry with the given key. -/
def dictGet {κ α : Type} [DecidableEq κ] (k : κ) : List (κ × α) → Option α
  | [] => none
  | (k', v) :: rest => if k' = k then some v else dictGet k rest

/-- `d[k] = v` on a Python-`dict` model: update in place if present,
append otherwise. -/
def dictPut {κ α : Type} [DecidableEq κ] (k : κ) (v : α) : List (κ × α) → List (κ × α)
  | [] => [(k, v)]
  | (k', v') :: rest => if k' = k then (k, v) :: rest else (k', v') :: dictPut k v rest

/-- The keys of a Python-`dict` model, in insertion order. -/
def dictKeys {κ α : Type} (d : List (κ × α)) : List κ := d.map Prod.fst

/-! ## Graph nodes (`pyplan/nodes.py`)

`Node.__init__` stores `node_id` and the two neighbour-id sets
`in_nodes_ids` / `out_nodes_ids`.  Sets are modelled as lists with
membership-checked insertion (every mutation in `graph.py` checks
membership before `add`, so the list model never duplicates). -/

/-- A graph `Node` (`nodes.py`): identity plus the two neighbour-id sets. -/
structure GNode where
  node_id : Nat
  in_nodes_ids : List Nat
  out_nodes_ids : List Nat
deriving Repr, DecidableEq

/-! ## Graph relationship tests (`pyplan/graph.py`) -/

/-- `Graph.has_relationship(source_node, target_node)`:
`source_node.node_id in target_node.in_nodes_ids`. -/
def has_relationship (source_node target_node : GNode) : Bool :=
  target_node.in_nodes_ids.contains source_node.node_id

/-- `Graph.is_successor(child_node, parent_node) = has_relationship(parent_node, child_node)`. -/
def is_successor (child_node parent_node : GNode) : Bool :=
  has_relationship parent_node child_node

/-- `Graph.is_predecessor(parent_node, child_node) = has_relationship(parent_node, child_node)`. -/
def is_predecessor (parent_node child_node : GNode) : Bool :=
  has_relationship parent_node child_node

/-- Modelled from the spec's words for comparison (claim C7): the spec
defines both relationship tests as `child.id ∈ parent.out_ids`. -/
def spec_is_successor (child_node parent_node : GNode) : Bool :=
  parent_node.out_nodes_ids.contains child_node.node_id

end Pyplan

namespace Pyplan

/-- C7 counterexample data: a parent whose `out_nodes_ids` lists the child,
while the child's `in_nodes_ids` does not list the parent (an inconsistent
pair of neighbour-id sets, explicitly covered by the claim). -/
def c7parent : GNode := ⟨0, [], [1]⟩

/-- C7 counterexample data: the child node; see `c7parent`. -/
def c7child : GNode := ⟨1, [], []⟩

end Pyplan

/-- C7 (counterexample): at an explicit inconsistent node state with
`child.id ∈ parent.out_ids` but `parent.id ∉ child.in_ids`, the code's
`is_successor` returns `false`, so the tests are not defined in terms of
`child.id ∈ parent.out_ids` as the claim states.  `spec_is_successor` is
the claim's own definition, which returns `true` here. -/
theorem c7_tests_not_out_ids :
    Pyplan.spec_is_successor Pyplan.c7child Pyplan.c7parent = true ∧
    Pyplan.is_successor Pyplan.c7child Pyplan.c7parent = false ∧
    Pyplan.is_predecessor Pyplan.c7parent Pyplan.c7child = false := by
  decide

/-- C7 (amended): `is_successor(child, parent)` and
`is_predecessor(parent, child)` are both defined purely in terms of
`parent.id ∈ child.in_ids` — for all node states, including states where
the two neighbour-id sets are inconsistent with each other. -/
theorem c7_tests_are_in_ids (child parent : Pyplan.GNode) :
    Pyplan.is_successor child parent = child.in_nodes_ids.contains parent.node_id ∧
    Pyplan.is_predecessor parent child = child.in_nodes_ids.contains parent.node_id := by
  exact ⟨rfl, rfl⟩

namespace Pyplan

/-! ## The `SearchSpace` frontier (`pyplan/graph.py`, class `SearchSpace`)

The frontier is a pair of parallel lists `open_nodes` / `weights` kept
sorted ascending by weight.  `open_node` inserts with `bisect.bisect_right`
under the `MAX` selector and `bisect.bisect_left` under `MIN`;
`close_node` finds the weight with `bisect.bisect_left`, then scans
forward for the matching id and pops both entries. -/

/-- The selector mode: `SearchSpace.ORDER_BY_MAX` / `ORDER_BY_MIN`. -/
inductive Selector
  | max
  | min
deriving Repr, DecidableEq

/-- Python's `bisect.bisect_left(ws, x)`: the first index whose element is
not `< x` (for a sorted list, the leftmost insertion point for `x`). -/
def bisect_left (ws : List Int) (x : Int) : Nat :=
  match ws with
  | [] => 0
  | w :: rest => if w < x then bisect_left rest x + 1 else 0

/-- Python's `bisect.bisect_right(ws, x)`: the first index whose element is
not `≤ x` (for a sorted list, the rightmost insertion point for `x`). -/
def bisect_right (ws : List Int) (x : Int) : Nat :=
  match ws with
  | [] => 0
  | w :: rest => if w ≤ x then bisect_right rest x + 1 else 0

/-- Python's `list.insert(i, x)`: insert before position `i`, clamping to
the end when `i` exceeds the length. -/
def pyInsert {α : Type} (i : Nat) (x : α) : List α → List α
  | [] => [x]
  | a :: l => match i with
    | 0 => x :: a :: l
    | i' + 1 => a :: pyInsert i' x l

/-- The frontier state of a `SearchSpace`: the `selector` mode and the two
parallel lists `open_nodes` / `weights`. -/
structure SSpace where
  selector : Selector
  open_nodes : List Nat
  weights : List Int
deriving Repr, DecidableEq

/-- `SearchSpace.open_node(node)`: compute the insertion index with
`bisect_right` (`MAX`) or `bisect_left` (`MIN`) on `weights`, then insert
`node.node_id` and `node.weight` at that index in both lists.  `k` is the
node's id and `w` its `weight` attribute. -/
def open_node (s : SSpace) (k : Nat) (w : Int) : SSpace :=
  let index := match s.selector with
    | .max => bisect_right s.weights w
    | .min => bisect_left s.weights w
  { s with open_nodes := pyInsert index k s.open_nodes,
           weights := pyInsert index w s.weights }

/-- The scan of `SearchSpace.close_node`: starting index of the first
occurrence of `k`, or `none` when the `while` loop runs past the end of the
list (an `IndexError` in Python). -/
def scanFor (k : Nat) : List Nat → Option Nat
  | [] => none
  | a :: l => if a = k then some 0 else (scanFor k l).map (· + 1)

/-- `SearchSpace.close_node(node)`: `bisect_left` on `weights` for the
node's weight, scan forward until `open_nodes[index] == node.node_id`, then
pop that index from both lists.  `none` models the `IndexError` raised when
the scan runs past the end. -/
def close_node (s : SSpace) (w : Int) (k : Nat) : Option SSpace :=
  let start := bisect_left s.weights w
  (scanFor k (s.open_nodes.drop start)).map fun j =>
    let index := start + j
    { s with open_nodes := s.open_nodes.eraseIdx index,
             weights := s.weights.eraseIdx index }

/-- `SearchSpace.close_all()`: clear both lists. -/
def close_all (s : SSpace) : SSpace :=
  { s with open_nodes := [], weights := [] }

/-- `SearchSpace.get_len_open_nodes()`. -/
def get_len_open_nodes (s : SSpace) : Nat := s.open_nodes.length

/-- The full id sequence produced by `SearchSpace.get_open_nodes()` when the
frontier is not mutated during the traversal: `reversed(open_nodes)` for
`MAX`, `open_nodes` itself for `MIN`. -/
def get_open_nodes_ids (s : SSpace) : List Nat :=
  match s.selector with
  | .max => s.open_nodes.reverse
  | .min => s.open_nodes

/-- The empty frontier with the given selector (`SearchSpace.__init__`). -/
def emptySSpace (sel : Selector) : SSpace := ⟨sel, [], []⟩

/-! ### Arithmetic facts about `bisect` and `pyInsert` -/

theorem bisect_left_le_length (ws : List Int) (x : Int) : bisect_left ws x ≤ ws.length := by
  induction ws with
  | nil => simp [bisect_left]
  | cons w rest ih =>
      simp only [bisect_left, List.length_cons]
      split
      · omega
      · omega

theorem bisect_right_le_length (ws : List Int) (x : Int) : bisect_right ws x ≤ ws.length := by
  induction ws with
  | nil => simp [bisect_right]
  | cons w rest ih =>
      simp only [bisect_right, List.length_cons]
      split
      · omega
      · omega

theorem pyInsert_length {α : Type} (x : α) (l : List α) (i : Nat) :
    (pyInsert i x l).length = l.length + 1 := by
  induction l generalizing i with
  | nil => simp [pyInsert]
  | cons a l ih =>
      cases i with
      | zero => simp [pyInsert]
      | succ i' => simp [pyInsert, ih]

theorem pyInsert_get_self {α : Type} (x : α) (l : List α) (i : Nat) (h : i ≤ l.length) :
    (pyInsert i x l)[i]? = some x := by
  induction l generalizing i with
  | nil =>
      have : i = 0 := by simpa using h
      subst this
      rfl
  | cons a l ih =>
      cases i with
      | zero => rfl
      | succ i' =>
          simp only [pyInsert, List.getElem?_cons_succ]
          exact ih i' (by simpa using h)

theorem pyInsert_get_lt {α : Type} (x : α) (l : List α) (i j : Nat)
    (hj : j < i) (hi : i ≤ l.length) :
    (pyInsert i x l)[j]? = l[j]? := by
  induction l generalizing i j with
  | nil =>
      simp only [List.length_nil] at hi
      omega
  | cons a l ih =>
      cases i with
      | zero => omega
      | succ i' =>
          cases j with
          | zero => simp [pyInsert]
          | succ j' =>
              simp only [pyInsert, List.getElem?_cons_succ]
              exact ih i' j' (by omega) (by simpa using hi)

theorem pyInsert_get_ge {α : Type} (x : α) (l : List α) (i j : Nat) (h : i ≤ j) :
    (pyInsert i x l)[j + 1]? = l[j]? := by
  induction l generalizing i j with
  | nil =>
      cases i <;> simp [pyInsert]
  | cons a l ih =>
      cases i with
      | zero => simp [pyInsert]
      | succ i' =>
          cases j with
          | zero => omega
          | succ j' =>
              simp only [pyInsert, List.getElem?_cons_succ]
              exact ih i' j' (by omega)

theorem bisect_left_insert_self (ws : List Int) (x : Int) :
    bisect_left (pyInsert (bisect_left ws x) x ws) x = bisect_left ws x := by
  induction ws with
  | nil => simp [bisect_left, pyInsert]
  | cons w rest ih =>
      by_cases h : w < x
      · simp only [bisect_left, if_pos h, pyInsert]
        simp only [bisect_left, if_pos h, ih]
      · simp only [bisect_left, if_neg h, pyInsert]
        simp [bisect_left]

theorem bisect_right_insert_self (ws : List Int) (x : Int) :
    bisect_right (pyInsert (bisect_right ws x) x ws) x = bisect_right ws x + 1 := by
  induction ws with
  | nil => simp [bisect_right, pyInsert]
  | cons w rest ih =>
      by_cases h : w ≤ x
      · simp only [bisect_right, if_pos h, pyInsert]
        simp only [bisect_right, if_pos h, ih]
      · simp only [bisect_right, if_neg h, pyInsert]
        simp [bisect_right, h]

end Pyplan

/-- C2 (counterexample): under `MAX`, opening node 10 and then node 11 with
the same weight 10 makes `get_open_nodes` yield 11 *before* 10, and the
same happens under `MIN` — the later-opened node of an equal-weight pair is
yielded first, so equal-weight nodes are *not* yielded in their insertion
order (FIFO) as the claim states.  (This matches the repository's own test
`test_graph.py`, which asserts that id 11 comes out first.) -/
theorem c2_equal_weights_not_fifo :
    Pyplan.get_open_nodes_ids
        (Pyplan.open_node (Pyplan.open_node (Pyplan.emptySSpace .max) 10 10) 11 10)
      = [11, 10] ∧
    Pyplan.get_open_nodes_ids
        (Pyplan.open_node (Pyplan.open_node (Pyplan.emptySSpace .min) 10 10) 11 10)
      = [11, 10] := by
  decide

namespace Pyplan

/-! ### Equal-weight ordering across arbitrary `open_node` sequences

`open_all` folds any sequence of `open_node` calls over a frontier.  The
invariant `WFS` (parallel lists, weights sorted ascending) holds for the
fresh frontier and is preserved by every `open_node`; `entry_at` tracks a
single `(id, weight)` entry through later insertions, and `pair_before`
tracks the relative `open_nodes` order of two entries — insertion at any
index preserves the relative order of existing entries. -/

/-- A sequence of `open_node` calls, applied in order. -/
def open_all (s : SSpace) (ops : List (Nat × Int)) : SSpace :=
  ops.foldl (fun acc p => open_node acc p.1 p.2) s

/-- The frontier invariant `open_node` maintains: parallel lists and
ascending weights. -/
def WFS (s : SSpace) : Prop :=
  s.open_nodes.length = s.weights.length ∧ List.Sorted (· ≤ ·) s.weights

/-- The entry `(k, w)` sits at some shared position of the parallel
lists. -/
def entry_at (s : SSpace) (k : Nat) (w : Int) : Prop :=
  ∃ p : Nat, s.open_nodes[p]? = some k ∧ s.weights[p]? = some w

/-- `k₁` occurs at a strictly earlier `open_nodes` position than `k₂`. -/
def pair_before (s : SSpace) (k₁ k₂ : Nat) : Prop :=
  ∃ i j : Nat, i < j ∧ s.open_nodes[i]? = some k₁ ∧ s.open_nodes[j]? = some k₂

theorem open_all_append (s : SSpace) (l₁ l₂ : List (Nat × Int)) :
    open_all s (l₁ ++ l₂) = open_all (open_all s l₁) l₂ :=
  List.foldl_append _ _ _ _

theorem open_all_selector (ops : List (Nat × Int)) :
    ∀ s : SSpace, (open_all s ops).selector = s.selector := by
  induction ops with
  | nil => intro s; rfl
  | cons p rest ih =>
      intro s
      exact ih (open_node s p.1 p.2)

theorem pyInsert_mem {α : Type} (x : α) (l : List α) (i : Nat) (y : α) :
    y ∈ pyInsert i x l ↔ y = x ∨ y ∈ l := by
  induction l generalizing i with
  | nil => simp [pyInsert]
  | cons a l ih =>
      cases i with
      | zero =>
          simp only [pyInsert, List.mem_cons]
      | succ i' =>
          simp only [pyInsert, List.mem_cons, ih]
          tauto

theorem bisect_left_insert_sorted (ws : List Int) (x : Int)
    (h : List.Sorted (· ≤ ·) ws) :
    List.Sorted (· ≤ ·) (pyInsert (bisect_left ws x) x ws) := by
  induction ws with
  | nil => simp [bisect_left, pyInsert]
  | cons w rest ih =>
      rw [List.sorted_cons] at h
      by_cases hwx : w < x
      · simp only [bisect_left, if_pos hwx, pyInsert]
        rw [List.sorted_cons]
        refine ⟨?_, ih h.2⟩
        intro y hy
        rcases (pyInsert_mem x rest _ y).mp hy with hy | hy
        · subst hy
          exact le_of_lt hwx
        · exact h.1 y hy
      · simp only [bisect_left, if_neg hwx, pyInsert]
        rw [List.sorted_cons]
        refine ⟨?_, ?_⟩
        · intro y hy
          rcases List.mem_cons.mp hy with hy | hy
          · subst hy
            exact le_of_not_lt hwx
          · exact le_trans (le_of_not_lt hwx) (h.1 y hy)
        · rw [List.sorted_cons]
          exact h

theorem bisect_right_insert_sorted (ws : List Int) (x : Int)
    (h : List.Sorted (· ≤ ·) ws) :
    List.Sorted (· ≤ ·) (pyInsert (bisect_right ws x) x ws) := by
  induction ws with
  | nil => simp [bisect_right, pyInsert]
  | cons w rest ih =>
      rw [List.sorted_cons] at h
      by_cases hwx : w ≤ x
      · simp only [bisect_right, if_pos hwx, pyInsert]
        rw [List.sorted_cons]
        refine ⟨?_, ih h.2⟩
        intro y hy
        rcases (pyInsert_mem x rest _ y).mp hy with hy | hy
        · subst hy
          exact hwx
        · exact h.1 y hy
      · simp only [bisect_right, if_neg hwx, pyInsert]
        rw [List.sorted_cons]
        refine ⟨?_, ?_⟩
        · intro y hy
          rcases List.mem_cons.mp hy with hy | hy
          · subst hy
            exact le_of_lt (lt_of_not_le hwx)
          · exact le_trans (le_of_lt (lt_of_not_le hwx)) (h.1 y hy)
        · rw [List.sorted_cons]
          exact h

/-- Every position strictly before `bisect_left ws x` holds a weight
strictly below `x` (Python's `bisect_left` skips the longest `< x`
prefix). -/
theorem bisect_left_all_below (ws : List Int) (x : Int) (q : Nat) (y : Int)
    (hq : q < bisect_left ws x) (hy : ws[q]? = some y) : y < x := by
  induction ws generalizing q with
  | nil => simp [bisect_left] at hq
  | cons w rest ih =>
      by_cases hwx : w < x
      · simp only [bisect_left, if_pos hwx] at hq
        cases q with
        | zero =>
            simp only [List.getElem?_cons_zero, Option.some.injEq] at hy
            rw [← hy]
            exact hwx
        | succ q' =>
            exact ih q' (by omega) (by simpa using hy)
      · simp only [bisect_left, if_neg hwx] at hq
        omega

/-- In a sorted weight list, every occurrence of `x` lies strictly before
`bisect_right ws x`. -/
theorem bisect_right_pos_of_sorted (ws : List Int) (x : Int) (p : Nat)
    (hs : List.Sorted (· ≤ ·) ws) (hp : ws[p]? = some x) :
    p < bisect_right ws x := by
  induction ws generalizing p with
  | nil => simp at hp
  | cons w rest ih =>
      rw [List.sorted_cons] at hs
      by_cases hwx : w ≤ x
      · simp only [bisect_right, if_pos hwx]
        cases p with
        | zero => omega
        | succ q =>
            have := ih q hs.2 (by simpa using hp)
            omega
      · exfalso
        cases p with
        | zero =>
            simp only [List.getElem?_cons_zero, Option.some.injEq] at hp
            exact hwx (le_of_eq hp)
        | succ q =>
            have hmem : x ∈ rest := by
              simp only [List.getElem?_cons_succ] at hp
              exact List.getElem?_mem hp
            exact hwx (hs.1 x hmem)

theorem WFS_empty (sel : Selector) : WFS (emptySSpace sel) :=
  ⟨rfl, List.sorted_nil⟩

theorem WFS_open (s : SSpace) (k : Nat) (w : Int) (h : WFS s) :
    WFS (open_node s k w) := by
  obtain ⟨sel, ns, ws⟩ := s
  have hl : ns.length = ws.length := h.1
  have hs : List.Sorted (· ≤ ·) ws := h.2
  cases sel with
  | max =>
      constructor
      · show (pyInsert (bisect_right ws w) k ns).length
            = (pyInsert (bisect_right ws w) w ws).length
        rw [pyInsert_length, pyInsert_length, hl]
      · show List.Sorted (· ≤ ·) (pyInsert (bisect_right ws w) w ws)
        exact bisect_right_insert_sorted ws w hs
  | min =>
      constructor
      · show (pyInsert (bisect_left ws w) k ns).length
            = (pyInsert (bisect_left ws w) w ws).length
        rw [pyInsert_length, pyInsert_length, hl]
      · show List.Sorted (· ≤ ·) (pyInsert (bisect_left ws w) w ws)
        exact bisect_left_insert_sorted ws w hs

theorem WFS_open_all (ops : List (Nat × Int)) :
    ∀ s : SSpace, WFS s → WFS (open_all s ops) := by
  induction ops with
  | nil => intro s h; exact h
  | cons p rest ih =>
      intro s h
      exact ih (open_node s p.1 p.2) (WFS_open s p.1 p.2 h)

/-- Opening `(k, w)` records the entry at the insertion index of both
parallel lists. -/
theorem entry_at_open (s : SSpace) (k : Nat) (w : Int) (h : WFS s) :
    entry_at (open_node s k w) k w := by
  obtain ⟨sel, ns, ws⟩ := s
  have hl : ns.length = ws.length := h.1
  cases sel with
  | max =>
      refine ⟨bisect_right ws w, ?_, ?_⟩
      · show (pyInsert (bisect_right ws w) k ns)[bisect_right ws w]? = some k
        exact pyInsert_get_self k ns _ (by rw [hl]; exact bisect_right_le_length ws w)
      · show (pyInsert (bisect_right ws w) w ws)[bisect_right ws w]? = some w
        exact pyInsert_get_self w ws _ (bisect_right_le_length ws w)
  | min =>
      refine ⟨bisect_left ws w, ?_, ?_⟩
      · show (pyInsert (bisect_left ws w) k ns)[bisect_left ws w]? = some k
        exact pyInsert_get_self k ns _ (by rw [hl]; exact bisect_left_le_length ws w)
      · show (pyInsert (bisect_left ws w) w ws)[bisect_left ws w]? = some w
        exact pyInsert_get_self w ws _ (bisect_left_le_length ws w)

/-- Inserting at one shared index of both parallel lists moves an existing
entry to a shifted shared position. -/
theorem entry_shift (ns : List Nat) (ws : List Int) (c : Nat) (w' : Int)
    (idx : Nat) (k : Nat) (w : Int) (p : Nat)
    (hin : idx ≤ ns.length) (hiw : idx ≤ ws.length)
    (hpo : ns[p]? = some k) (hpw : ws[p]? = some w) :
    ∃ q : Nat, (pyInsert idx c ns)[q]? = some k ∧ (pyInsert idx w' ws)[q]? = some w := by
  by_cases hp : p < idx
  · refine ⟨p, ?_, ?_⟩
    · rw [pyInsert_get_lt c ns idx p hp hin]; exact hpo
    · rw [pyInsert_get_lt w' ws idx p hp hiw]; exact hpw
  · refine ⟨p + 1, ?_, ?_⟩
    · rw [pyInsert_get_ge c ns idx p (by omega)]; exact hpo
    · rw [pyInsert_get_ge w' ws idx p (by omega)]; exact hpw

theorem entry_at_open_other (s : SSpace) (k : Nat) (w : Int) (c : Nat) (w' : Int)
    (h : WFS s) (he : entry_at s k w) : entry_at (open_node s c w') k w := by
  obtain ⟨sel, ns, ws⟩ := s
  have hl : ns.length = ws.length := h.1
  obtain ⟨p, hpo, hpw⟩ := he
  cases sel with
  | max =>
      exact entry_shift ns ws c w' (bisect_right ws w') k w p
        (by rw [hl]; exact bisect_right_le_length ws w')
        (bisect_right_le_length ws w') hpo hpw
  | min =>
      exact entry_shift ns ws c w' (bisect_left ws w') k w p
        (by rw [hl]; exact bisect_left_le_length ws w')
        (bisect_left_le_length ws w') hpo hpw

theorem entry_at_open_all (ops : List (Nat × Int)) :
    ∀ (s : SSpace) (k : Nat) (w : Int), WFS s → entry_at s k w →
      entry_at (open_all s ops) k w := by
  induction ops with
  | nil => intro s k w _ he; exact he
  | cons p rest ih =>
      intro s k w h he
      exact ih (open_node s p.1 p.2) k w (WFS_open s p.1 p.2 h)
        (entry_at_open_other s k w p.1 p.2 h he)

/-- Insertion preserves the relative order of existing entries. -/
theorem pair_shift (ns : List Nat) (c : Nat) (idx : Nat) (k₁ k₂ : Nat)
    (i j : Nat) (hidx : idx ≤ ns.length) (hij : i < j)
    (hi : ns[i]? = some k₁) (hj : ns[j]? = some k₂) :
    ∃ p q : Nat, p < q ∧ (pyInsert idx c ns)[p]? = some k₁ ∧
      (pyInsert idx c ns)[q]? = some k₂ := by
  by_cases hjidx : j < idx
  · refine ⟨i, j, hij, ?_, ?_⟩
    · rw [pyInsert_get_lt c ns idx i (by omega) hidx]; exact hi
    · rw [pyInsert_get_lt c ns idx j hjidx hidx]; exact hj
  · by_cases hiidx : i < idx
    · refine ⟨i, j + 1, by omega, ?_, ?_⟩
      · rw [pyInsert_get_lt c ns idx i hiidx hidx]; exact hi
      · rw [pyInsert_get_ge c ns idx j (by omega)]; exact hj
    · refine ⟨i + 1, j + 1, by omega, ?_, ?_⟩
      · rw [pyInsert_get_ge c ns idx i (by omega)]; exact hi
      · rw [pyInsert_get_ge c ns idx j (by omega)]; exact hj

theorem pair_before_open (s : SSpace) (k₁ k₂ c : Nat) (w' : Int)
    (h : WFS s) (hp : pair_before s k₁ k₂) :
    pair_before (open_node s c w') k₁ k₂ := by
  obtain ⟨sel, ns, ws⟩ := s
  have hl : ns.length = ws.length := h.1
  obtain ⟨i, j, hij, hi, hj⟩ := hp
  cases sel with
  | max =>
      exact pair_shift ns c (bisect_right ws w') k₁ k₂ i j
        (by rw [hl]; exact bisect_right_le_length ws w') hij hi hj
  | min =>
      exact pair_shift ns c (bisect_left ws w') k₁ k₂ i j
        (by rw [hl]; exact bisect_left_le_length ws w') hij hi hj

theorem pair_before_open_all (ops : List (Nat × Int)) :
    ∀ (s : SSpace) (k₁ k₂ : Nat), WFS s → pair_before s k₁ k₂ →
      pair_before (open_all s ops) k₁ k₂ := by
  induction ops with
  | nil => intro s k₁ k₂ _ hp; exact hp
  | cons p rest ih =>
      intro s k₁ k₂ h hp
      exact ih (open_node s p.1 p.2) k₁ k₂ (WFS_open s p.1 p.2 h)
        (pair_before_open s k₁ k₂ p.1 p.2 h hp)

/-- `MIN`: `bisect_left` places a new equal-weight entry strictly before
every existing entry of that weight. -/
theorem pair_created_min (s : SSpace) (a b : Nat) (w : Int)
    (h : WFS s) (hsel : s.selector = .min) (he : entry_at s a w) :
    pair_before (open_node s b w) b a := by
  obtain ⟨sel, ns, ws⟩ := s
  have hl : ns.length = ws.length := h.1
  have hsel' : sel = Selector.min := hsel
  subst hsel'
  obtain ⟨p, hpo, hpw⟩ := he
  have hble : bisect_left ws w ≤ p := by
    by_contra hcon
    exact absurd (bisect_left_all_below ws w p w (Nat.lt_of_not_le hcon) hpw)
      (lt_irrefl w)
  refine ⟨bisect_left ws w, p + 1, by omega, ?_, ?_⟩
  · show (pyInsert (bisect_left ws w) b ns)[bisect_left ws w]? = some b
    exact pyInsert_get_self b ns _ (by rw [hl]; exact bisect_left_le_length ws w)
  · show (pyInsert (bisect_left ws w) b ns)[p + 1]? = some a
    rw [pyInsert_get_ge b ns _ p hble]
    exact hpo

/-- `MAX`: `bisect_right` places a new equal-weight entry strictly after
every existing entry of that weight (weights sorted). -/
theorem pair_created_max (s : SSpace) (a b : Nat) (w : Int)
    (h : WFS s) (hsel : s.selector = .max) (he : entry_at s a w) :
    pair_before (open_node s b w) a b := by
  obtain ⟨sel, ns, ws⟩ := s
  have hl : ns.length = ws.length := h.1
  have hs : List.Sorted (· ≤ ·) ws := h.2
  have hsel' : sel = Selector.max := hsel
  subst hsel'
  obtain ⟨p, hpo, hpw⟩ := he
  have hplt : p < bisect_right ws w := bisect_right_pos_of_sorted ws w p hs hpw
  refine ⟨p, bisect_right ws w, hplt, ?_, ?_⟩
  · show (pyInsert (bisect_right ws w) b ns)[p]? = some a
    rw [pyInsert_get_lt b ns _ p hplt (by rw [hl]; exact bisect_right_le_length ws w)]
    exact hpo
  · show (pyInsert (bisect_right ws w) b ns)[bisect_right ws w]? = some b
    exact pyInsert_get_self b ns _ (by rw [hl]; exact bisect_right_le_length ws w)

/-- Under `MIN`, traversal order is `open_nodes` order. -/
theorem pair_before_traversal_min (s : SSpace) (b a : Nat)
    (hsel : s.selector = .min) (hp : pair_before s b a) :
    ∃ i j : Nat, i < j ∧ (get_open_nodes_ids s)[i]? = some b ∧
      (get_open_nodes_ids s)[j]? = some a := by
  obtain ⟨i, j, hij, hi, hj⟩ := hp
  refine ⟨i, j, hij, ?_, ?_⟩
  · simp only [get_open_nodes_ids, hsel]
    exact hi
  · simp only [get_open_nodes_ids, hsel]
    exact hj

/-- Under `MAX`, traversal order is reversed `open_nodes` order. -/
theorem pair_before_traversal_max (s : SSpace) (a b : Nat)
    (hsel : s.selector = .max) (hp : pair_before s a b) :
    ∃ i j : Nat, i < j ∧ (get_open_nodes_ids s)[i]? = some b ∧
      (get_open_nodes_ids s)[j]? = some a := by
  obtain ⟨i, j, hij, hi, hj⟩ := hp
  have hjlen : j < s.open_nodes.length := by
    rcases List.getElem?_eq_some.mp hj with ⟨hlt, -⟩
    exact hlt
  refine ⟨s.open_nodes.length - 1 - j, s.open_nodes.length - 1 - i, by omega, ?_, ?_⟩
  · simp only [get_open_nodes_ids, hsel]
    rw [List.getElem?_reverse' (s.open_nodes.length - 1 - j) j (by omega)]
    exact hj
  · simp only [get_open_nodes_ids, hsel]
    rw [List.getElem?_reverse' (s.open_nodes.length - 1 - i) i (by omega)]
    exact hi

end Pyplan

/-- C2 (amended): for *every* sequence of `open_node` calls on a fresh
`SearchSpace` — the pair of equal-weight opens arbitrarily separated by
other opens (`ops₂`) and followed by arbitrarily many later opens
(`ops₃`) — the node `b` opened later with weight `w` is yielded by
`get_open_nodes` at a strictly earlier traversal position than the node
`a` opened earlier with the same weight, in both the `MAX` and the `MIN`
selector modes: equal-weight nodes come out deterministically in reverse
insertion order (LIFO among equal weights). -/
theorem c2_equal_weights_lifo (sel : Pyplan.Selector)
    (ops₁ ops₂ ops₃ : List (Nat × Int)) (a b : Nat) (w : Int) :
    ∃ i j : Nat, i < j ∧
      (Pyplan.get_open_nodes_ids (Pyplan.open_all (Pyplan.emptySSpace sel)
          (ops₁ ++ ((a, w) :: ops₂) ++ ((b, w) :: ops₃))))[i]? = some b ∧
      (Pyplan.get_open_nodes_ids (Pyplan.open_all (Pyplan.emptySSpace sel)
          (ops₁ ++ ((a, w) :: ops₂) ++ ((b, w) :: ops₃))))[j]? = some a := by
  have hsplit : Pyplan.open_all (Pyplan.emptySSpace sel)
      (ops₁ ++ ((a, w) :: ops₂) ++ ((b, w) :: ops₃))
      = Pyplan.open_all (Pyplan.open_node (Pyplan.open_all
          (Pyplan.open_node (Pyplan.open_all (Pyplan.emptySSpace sel) ops₁) a w)
          ops₂) b w) ops₃ := by
    rw [Pyplan.open_all_append, Pyplan.open_all_append]
    rfl
  rw [hsplit]
  -- the state just before `a` is opened
  have hwf₀ : Pyplan.WFS (Pyplan.open_all (Pyplan.emptySSpace sel) ops₁) :=
    Pyplan.WFS_open_all ops₁ _ (Pyplan.WFS_empty sel)
  have hsel₀ : (Pyplan.open_all (Pyplan.emptySSpace sel) ops₁).selector = sel :=
    Pyplan.open_all_selector ops₁ _
  -- open `a`
  have hwf₁ := Pyplan.WFS_open _ a w hwf₀
  have he₁ := Pyplan.entry_at_open _ a w hwf₀
  -- the separating opens
  have hwf₂ := Pyplan.WFS_open_all ops₂ _ hwf₁
  have he₂ := Pyplan.entry_at_open_all ops₂ _ a w hwf₁ he₁
  have hsel₂ : (Pyplan.open_all (Pyplan.open_node
      (Pyplan.open_all (Pyplan.emptySSpace sel) ops₁) a w) ops₂).selector = sel := by
    rw [Pyplan.open_all_selector ops₂ _]
    exact hsel₀
  have hwf₃ := Pyplan.WFS_open _ b w hwf₂
  have hsel₄ : (Pyplan.open_all (Pyplan.open_node (Pyplan.open_all
      (Pyplan.open_node (Pyplan.open_all (Pyplan.emptySSpace sel) ops₁) a w)
      ops₂) b w) ops₃).selector = sel := by
    rw [Pyplan.open_all_selector ops₃ _]
    exact hsel₂
  cases sel with
  | min =>
      have hp₃ := Pyplan.pair_created_min _ a b w hwf₂ hsel₂ he₂
      have hp₄ := Pyplan.pair_before_open_all ops₃ _ b a hwf₃ hp₃
      exact Pyplan.pair_before_traversal_min _ b a hsel₄ hp₄
  | max =>
      have hp₃ := Pyplan.pair_created_max _ a b w hwf₂ hsel₂ he₂
      have hp₄ := Pyplan.pair_before_open_all ops₃ _ a b hwf₃ hp₃
      exact Pyplan.pair_before_traversal_max _ a b hsel₄ hp₄

namespace Pyplan

/-! ## The chained scope store (`pyplan/store.py`, class `ChainScopeStore`)

A `ChainScopeStore` owns the `init` mapping (a plain in-memory dict) and a
registry `collections : scope_id → ChainCollectionMap`.  Each
`ChainCollectionMap` wraps a `collections.ChainMap`, i.e. a list of
mapping objects searched front to back; writes go to the first mapping.
The mapping objects are shared by reference between parent and child
chains, so the model gives every mapping ("layer") an index into a global
`layers` store and represents a chain as the list of its layer indices.
Layer `0` is `init`.

`create_scope(scope_id, parent_id)` allocates a fresh private layer and
chains it in front of the parent's chain when `parent_id` is *truthy*
(Python `if parent_id:` — `None` and `0` both take the init branch), or in
front of `[init]` otherwise; the parent lookup `self.collections[parent_id]`
raises `KeyError` when the parent is not registered (modelled as `none`). -/

/-- A `ChainScopeStore`: the global layer store (index `0` = `init`) and
the `collections` registry mapping scope ids to chains of layer indices. -/
structure ChainStore (V : Type) where
  layers : List (List (Nat × V))
  scopes : List (Int × List Nat)
deriving Repr, DecidableEq

/-- A fresh `ChainScopeStore()`: only the empty `init` layer, no scopes. -/
def initStore (V : Type) : ChainStore V := ⟨[[]], []⟩

/-- The mapping stored in layer `l` (out-of-range reads the empty mapping;
well-formed states never index out of range). -/
def layerAt {V : Type} (st : ChainStore V) (l : Nat) : List (Nat × V) :=
  st.layers.getD l []

/-- `ChainScopeStore.create_scope(scope_id, parent_id)`.  Returns the
updated store and the new scope's chain, or `none` for the `KeyError`
raised when a truthy `parent_id` is not registered.  The `if parent_id:`
truthiness test means `parent_id = 0` takes the init branch. -/
def create_scope {V : Type} (st : ChainStore V) (sid : Int) (pid : Option Int) :
    Option (ChainStore V × List Nat) :=
  let newIdx := st.layers.length
  let layers' := st.layers ++ [[]]
  match pid with
  | some p =>
      if p ≠ 0 then
        match dictGet p st.scopes with
        | none => none
        | some parentChain =>
            let chain := newIdx :: parentChain
            some (⟨layers', dictPut sid chain st.scopes⟩, chain)
      else
        some (⟨layers', dictPut sid [newIdx, 0] st.scopes⟩, [newIdx, 0])
  | none =>
      some (⟨layers', dictPut sid [newIdx, 0] st.scopes⟩, [newIdx, 0])

/-- `ChainScopeStore.get_scope(scope_id)`: `none` models
`ScopeNotFoundError`. -/
def get_scope {V : Type} (st : ChainStore V) (sid : Int) : Option (List Nat) :=
  dictGet sid st.scopes

/-- Reading a key through a chain (`ChainMap.__getitem__` /
`ChainCollectionMap.get_record`): search the layers front to back; `none`
models the final `KeyError`. -/
def chain_get {V : Type} (st : ChainStore V) : List Nat → Nat → Option V
  | [], _ => none
  | l :: rest, k =>
      match dictGet k (layerAt st l) with
      | some v => some v
      | none => chain_get st rest k

/-- Writing a key through a chain (`ChainMap.__setitem__` /
`ChainCollectionMap.put_record`): the write lands in the first layer.
Chains are never empty (a `ChainMap` always holds at least one map); the
`[]` branch is unreachable for chains produced by `create_scope`. -/
def chain_put {V : Type} (st : ChainStore V) (chain : List Nat) (k : Nat) (v : V) :
    ChainStore V :=
  match chain with
  | [] => st
  | l :: _ => { st with layers := st.layers.set l (dictPut k v (layerAt st l)) }

/-- Reading the `init` scope directly (`store.init.get_record`). -/
def init_get {V : Type} (st : ChainStore V) (k : Nat) : Option V :=
  dictGet k (layerAt st 0)

/-- Writing the `init` scope directly (`sput_all` / `store.init.put_record`). -/
def init_put {V : Type} (st : ChainStore V) (k : Nat) (v : V) : ChainStore V :=
  chain_put st [0] k v

/-- Well-formedness of a `ChainScopeStore` state: the `init` layer exists
and every registered chain only references existing layers.  This holds
for `initStore` and is preserved by `create_scope` and `chain_put`. -/
def WFStore {V : Type} (st : ChainStore V) : Prop :=
  0 < st.layers.length ∧
  ∀ sid chain, dictGet sid st.scopes = some chain → ∀ l ∈ chain, l < st.layers.length

/-! ### Layer-store access lemmas -/

theorem listGetD_append {α : Type} (l l' : List α) (i : Nat) (d : α) (h : i < l.length) :
    (l ++ l').getD i d = l.getD i d := by
  simp only [List.getD, List.get?_eq_getElem?, List.getElem?_append_left h]

theorem listGetD_set_ne {α : Type} (l : List α) (i j : Nat) (x : α) (d : α) (h : i ≠ j) :
    (l.set i x).getD j d = l.getD j d := by
  simp only [List.getD, List.get?_eq_getElem?, List.getElem?_set_ne h]

theorem listGetD_set_self {α : Type} (l : List α) (i : Nat) (x : α) (d : α)
    (h : i < l.length) :
    (l.set i x).getD i d = x := by
  simp [List.getD, List.get?_eq_getElem?, List.getElem?_set_self, h]

theorem dictGet_dictPut_self {κ α : Type} [DecidableEq κ] (k : κ) (v : α)
    (d : List (κ × α)) :
    dictGet k (dictPut k v d) = some v := by
  induction d with
  | nil => simp [dictPut, dictGet]
  | cons e rest ih =>
      obtain ⟨k', v'⟩ := e
      by_cases hk : k' = k
      · simp [dictPut, dictGet, hk]
      · simp only [dictPut, if_neg hk, dictGet]
        exact ih

theorem chain_get_congr {V : Type} (st₁ st₂ : ChainStore V) (chain : List Nat)
    (h : ∀ l ∈ chain, layerAt st₁ l = layerAt st₂ l) (k : Nat) :
    chain_get st₁ chain k = chain_get st₂ chain k := by
  induction chain with
  | nil => rfl
  | cons l rest ih =>
      simp only [chain_get]
      rw [h l (by simp)]
      cases dictGet k (layerAt st₂ l) with
      | none =>
          simp only []
          exact ih fun l' hl' => h l' (by simp [hl'])
      | some v => rfl

end Pyplan

/-- C4: in a well-formed `ChainScopeStore`, create any chained scope
(either parented at a registered scope or chained to `init`) and write any
key into it: the write leaves the `init` mapping and every ancestor
scope's reads unchanged (relative to the original store — the key is not
visible from `init` or any ancestor), the written key reads back from the
new scope, and every other key falls through the parent chain exactly as
it read in the original store, down to `init`. -/
theorem c4_chained_scope_isolation {V : Type} (st : Pyplan.ChainStore V) (sid : Int)
    (pid : Option Int) (st' : Pyplan.ChainStore V) (chain : List Nat)
    (hwf : Pyplan.WFStore st)
    (hcs : Pyplan.create_scope st sid pid = some (st', chain)) (k : Nat) (v : V) :
    (∀ k', Pyplan.init_get (Pyplan.chain_put st' chain k v) k' = Pyplan.init_get st k') ∧
    (∀ k', Pyplan.chain_get (Pyplan.chain_put st' chain k v) chain.tail k'
            = Pyplan.chain_get st chain.tail k') ∧
    (Pyplan.chain_get (Pyplan.chain_put st' chain k v) chain k = some v) ∧
    (∀ k', k' ≠ k →
      Pyplan.chain_get (Pyplan.chain_put st' chain k v) chain k'
        = Pyplan.chain_get st chain.tail k') := by
  classical
  obtain ⟨hpos, hreg⟩ := hwf
  -- unpack `create_scope`: the new chain is `newIdx :: tail` with `newIdx`
  -- fresh and every element of `tail` an existing layer index
  have hshape : st'.layers = st.layers ++ [[]] ∧
      ∃ tail, chain = st.layers.length :: tail ∧ ∀ l ∈ tail, l < st.layers.length := by
    cases pid with
    | none =>
        simp only [Pyplan.create_scope, Option.some.injEq, Prod.mk.injEq] at hcs
        refine ⟨by rw [← hcs.1], ⟨[0], ?_, ?_⟩⟩
        · rw [← hcs.2]
        · intro l hl
          simp only [List.mem_singleton] at hl
          omega
    | some p =>
        by_cases hp : p ≠ 0
        · simp only [Pyplan.create_scope, if_pos hp] at hcs
          cases hpc : Pyplan.dictGet p st.scopes with
          | none => rw [hpc] at hcs; exact absurd hcs (by simp)
          | some pc =>
              rw [hpc] at hcs
              simp only [Option.some.injEq, Prod.mk.injEq] at hcs
              refine ⟨by rw [← hcs.1], ⟨pc, by rw [← hcs.2], ?_⟩⟩
              intro l hl
              exact hreg p pc hpc l hl
        · simp only [Pyplan.create_scope, if_neg hp, Option.some.injEq, Prod.mk.injEq] at hcs
          refine ⟨by rw [← hcs.1], ⟨[0], by rw [← hcs.2], ?_⟩⟩
          intro l hl
          simp only [List.mem_singleton] at hl
          omega
  obtain ⟨hlay, tail, hchain, htail⟩ := hshape
  subst hchain
  set newIdx := st.layers.length with hnew
  -- the state after the write
  set st'' := Pyplan.chain_put st' (newIdx :: tail) k v with hst''
  -- the write only touches layer `newIdx`
  have hlayer_other : ∀ l, l < st.layers.length → Pyplan.layerAt st'' l = Pyplan.layerAt st l := by
    intro l hl
    show (st'.layers.set newIdx _).getD l [] = st.layers.getD l []
    rw [Pyplan.listGetD_set_ne _ _ _ _ _ (by omega)]
    rw [hlay]
    exact Pyplan.listGetD_append _ _ _ _ hl
  have hlayer_new : Pyplan.layerAt st'' newIdx = Pyplan.dictPut k v [] := by
    show (st'.layers.set newIdx (Pyplan.dictPut k v (Pyplan.layerAt st' newIdx))).getD newIdx []
        = Pyplan.dictPut k v []
    have hidx : Pyplan.layerAt st' newIdx = [] := by
      show st'.layers.getD newIdx [] = []
      rw [hlay]
      simp only [List.getD, List.get?_eq_getElem?, hnew]
      rw [List.getElem?_append_right (by omega)]
      simp
    rw [hidx, Pyplan.listGetD_set_self]
    rw [hlay]
    simp [hnew]
  refine ⟨?_, ?_, ?_, ?_⟩
  · intro k'
    unfold Pyplan.init_get
    rw [show Pyplan.layerAt st'' 0 = Pyplan.layerAt st 0 from hlayer_other 0 hpos]
  · intro k'
    exact Pyplan.chain_get_congr st'' st tail
      (fun l hl => hlayer_other l (htail l hl)) k'
  · simp only [Pyplan.chain_get, hlayer_new]
    simp [Pyplan.dictGet]
  · intro k' hk'
    simp only [Pyplan.chain_get, hlayer_new]
    have : Pyplan.dictGet k' (Pyplan.dictPut k v []) = none := by
      simp only [Pyplan.dictGet, Pyplan.dictPut]
      rw [if_neg (fun h => hk' h.symm)]
    rw [this]
    exact Pyplan.chain_get_congr st'' st tail
      (fun l hl => hlayer_other l (htail l hl)) k'

/-- C4 witness: start from a store whose `init` holds `x ↦ 5` (key `0`),
create a scope chained to `init`, write `y ↦ 9` (key `7`) through it: the
write reads back, `x` still falls through to `init`'s value, and reading
`init` directly still gives `5` for `x` and nothing for `y`. -/
theorem c4_chained_scope_isolation_witness :
    Pyplan.init_get
        (Pyplan.chain_put ⟨[[(0, 5)], []], [(3, [1, 0])]⟩ [1, 0] 7 9) 7 = none ∧
    Pyplan.init_get
        (Pyplan.chain_put ⟨[[(0, 5)], []], [(3, [1, 0])]⟩ [1, 0] 7 9) 0 = some 5 ∧
    Pyplan.chain_get
        (Pyplan.chain_put ⟨[[(0, 5)], []], [(3, [1, 0])]⟩ [1, 0] 7 9) [1, 0] 7 = some 9 ∧
    Pyplan.chain_get
        (Pyplan.chain_put ⟨[[(0, 5)], []], [(3, [1, 0])]⟩ [1, 0] 7 9) [1, 0] 0 = some 5 := by
  have hwf : Pyplan.WFStore (V := Nat) ⟨[[(0, 5)]], []⟩ := by
    constructor
    · simp
    · intro sid chain h
      simp [Pyplan.dictGet] at h
  have h := c4_chained_scope_isolation (V := Nat) ⟨[[(0, 5)]], []⟩ 3 none
    ⟨[[(0, 5)], []], [(3, [1, 0])]⟩ [1, 0] hwf (by decide) 7 9
  refine ⟨?_, ?_, h.2.2.1, ?_⟩
  · rw [h.1 7]; decide
  · rw [h.1 0]; decide
  · rw [h.2.2.2 0 (by decide)]; decide

namespace Pyplan

/-! ## Search-space nodes and the write-scope derivation
(`pyplan/builtins.py`, `Frame.w_context`)

A search-space node carries, on top of its graph identity, the search
attributes `reference`, `context_id` (the id of the scope its writes
belong to; `Frame.INIT_CONTEXT_ID = -1` is the init sentinel) and
`weight`.  `Frame.w_context` lazily materializes the node's write scope:
on the first write-triggering access it creates a chained scope registered
under the node's own id, updates `context_id`, and persists the node into
the search space's collection. -/

/-- A search-space node: graph identity plus the search attributes
`reference`, `context_id` and `weight` (set by the field serializers in
`serializers.py`). -/
structure SNode where
  node_id : Nat
  reference : Nat
  context_id : Int
  weight : Option Int
  in_nodes_ids : List Nat
  out_nodes_ids : List Nat
deriving Repr, DecidableEq

/-- `Frame.INIT_CONTEXT_ID`. -/
def INIT_CONTEXT_ID : Int := -1

/-- The slice of a `Frame` that `w_context` touches: the scope store, the
search space's node collection, the current `context` (as its chain of
layer indices; `[0]` is `init`), and the `selected` node. -/
structure WFrame (V : Type) where
  store : ChainStore V
  snodes : List (Nat × SNode)
  context : List Nat
  selected : SNode
deriving Repr, DecidableEq

/-- `Frame.w_context` (`builtins.py` lines 65–74): if the selected node's
`context_id` differs from its own id, create a chained scope — passing the
current `context_id` as parent when it is not the `-1` sentinel — set the
node's `context_id` to its own id, persist the node into the search space,
and make the new scope the frame's context; otherwise return the current
context unchanged.  `none` models the `KeyError` raised by
`ChainScopeStore.create_scope` for an unregistered truthy parent id. -/
def w_context {V : Type} (f : WFrame V) : Option (WFrame V) :=
  if f.selected.context_id ≠ (f.selected.node_id : Int) then
    let res :=
      if f.selected.context_id ≠ INIT_CONTEXT_ID then
        create_scope f.store (f.selected.node_id : Int) (some f.selected.context_id)
      else
        create_scope f.store (f.selected.node_id : Int) none
    match res with
    | none => none
    | some (st', chain) =>
        let sel' := { f.selected with context_id := (f.selected.node_id : Int) }
        some ⟨st', dictPut sel'.node_id sel' f.snodes, chain, sel'⟩
  else some f

end Pyplan

/-- C3 (counterexample): a selected node with `node_id = 1` and
`context_id = 0` — node 0's scope, registered in the store with chain
`[1, 0]` and holding key `0 ↦ 5` in its private layer.  The claim says the
first write creates a scope parented at the node's current `context_id`
(`0`), which would make key `0` visible through the new context (chain
`[2, 1, 0]`).  The code's `if parent_id:` truthiness test treats scope id
`0` as absent, so the new scope is parented at `init` instead: the context
becomes `[2, 0]` and key `0` is not visible through it. -/
theorem c3_w_context_parent_zero :
    Pyplan.w_context (V := Nat)
        ⟨⟨[[], [(0, 5)]], [(0, [1, 0])]⟩, [(1, ⟨1, 0, 0, none, [], []⟩)],
         [1, 0], ⟨1, 0, 0, none, [], []⟩⟩
      = some ⟨⟨[[], [(0, 5)], []], [(0, [1, 0]), (1, [2, 0])]⟩,
              [(1, ⟨1, 0, 1, none, [], []⟩)], [2, 0], ⟨1, 0, 1, none, [], []⟩⟩ ∧
    Pyplan.chain_get (V := Nat) ⟨[[], [(0, 5)], []], [(0, [1, 0]), (1, [2, 0])]⟩
        [2, 0] 0 = none ∧
    Pyplan.chain_get (V := Nat) ⟨[[], [(0, 5)], []], [(0, [1, 0]), (1, [2, 0])]⟩
        [2, 1, 0] 0 = some 5 := by
  decide

/-- C3 (amended): for a selected node whose `context_id` differs from its
own `node_id` (with the parent scope registered when `context_id` is
neither `-1` nor `0`), the first write through `w_context` creates exactly
one new chained scope whose private layer is fresh — parented at the
node's current `context_id` when that id is neither the `-1` sentinel nor
`0`, and at `init` when it is `-1` *or* `0` (the code's `if parent_id:`
check treats scope id `0` as absent) — sets the node's `context_id` to its
own id, persists the node in the search space's collection, and every
subsequent write to the same selected node reuses that scope and creates
no further scope (`w_context` is the identity on the resulting frame). -/
theorem c3_w_context_materialization {V : Type} (f : Pyplan.WFrame V)
    (hne : f.selected.context_id ≠ (f.selected.node_id : Int))
    (hreg : f.selected.context_id ≠ -1 → f.selected.context_id ≠ 0 →
            ∃ pc, Pyplan.get_scope f.store f.selected.context_id = some pc) :
    ∃ f', Pyplan.w_context f = some f' ∧
      f'.store.layers.length = f.store.layers.length + 1 ∧
      f'.selected.context_id = (f.selected.node_id : Int) ∧
      Pyplan.dictGet f.selected.node_id f'.snodes = some f'.selected ∧
      f'.context.head? = some f.store.layers.length ∧
      ((f.selected.context_id = -1 ∨ f.selected.context_id = 0) →
        f'.context = [f.store.layers.length, 0]) ∧
      (∀ pc, f.selected.context_id ≠ -1 → f.selected.context_id ≠ 0 →
        Pyplan.get_scope f.store f.selected.context_id = some pc →
        f'.context = f.store.layers.length :: pc) ∧
      Pyplan.w_context f' = some f' := by
  classical
  obtain ⟨st, sn, ctx, sel⟩ := f
  obtain ⟨nid, ref, cid, wt, inl, outl⟩ := sel
  simp only at hne hreg ⊢
  by_cases h1 : cid = -1
  · -- sentinel: chained to init
    subst h1
    refine ⟨⟨⟨st.layers ++ [[]],
              Pyplan.dictPut (nid : Int) [st.layers.length, 0] st.scopes⟩,
             Pyplan.dictPut nid ⟨nid, ref, (nid : Int), wt, inl, outl⟩ sn,
             [st.layers.length, 0],
             ⟨nid, ref, (nid : Int), wt, inl, outl⟩⟩,
           ?_, by simp, rfl, Pyplan.dictGet_dictPut_self _ _ _, rfl, fun _ => rfl, ?_, ?_⟩
    · simp [Pyplan.w_context, Pyplan.create_scope, Pyplan.INIT_CONTEXT_ID, hne]
    · intro pc hneg _ _
      exact absurd rfl hneg
    · simp [Pyplan.w_context]
  · by_cases h0 : cid = 0
    · -- truthiness: parent id 0 takes the init branch
      subst h0
      refine ⟨⟨⟨st.layers ++ [[]],
                Pyplan.dictPut (nid : Int) [st.layers.length, 0] st.scopes⟩,
               Pyplan.dictPut nid ⟨nid, ref, (nid : Int), wt, inl, outl⟩ sn,
               [st.layers.length, 0],
               ⟨nid, ref, (nid : Int), wt, inl, outl⟩⟩,
             ?_, by simp, rfl, Pyplan.dictGet_dictPut_self _ _ _, rfl, fun _ => rfl, ?_, ?_⟩
      · simp [Pyplan.w_context, Pyplan.create_scope, Pyplan.INIT_CONTEXT_ID, hne]
      · intro pc _ hne0 _
        exact absurd rfl hne0
      · simp [Pyplan.w_context]
    · -- real parent: chained to the registered parent chain
      obtain ⟨pc, hpc⟩ := hreg h1 h0
      refine ⟨⟨⟨st.layers ++ [[]],
                Pyplan.dictPut (nid : Int) (st.layers.length :: pc) st.scopes⟩,
               Pyplan.dictPut nid ⟨nid, ref, (nid : Int), wt, inl, outl⟩ sn,
               st.layers.length :: pc,
               ⟨nid, ref, (nid : Int), wt, inl, outl⟩⟩,
             ?_, by simp, rfl, Pyplan.dictGet_dictPut_self _ _ _, rfl, ?_, ?_, ?_⟩
      · simp only [Pyplan.get_scope] at hpc
        simp [Pyplan.w_context, Pyplan.create_scope, Pyplan.INIT_CONTEXT_ID, hne, h1, h0, hpc]
      · intro hor
        cases hor with
        | inl h => exact absurd h h1
        | inr h => exact absurd h h0
      · intro pc' _ _ hpc'
        rw [hpc] at hpc'
        simp only [Option.some.injEq] at hpc'
        rw [hpc']
      · simp [Pyplan.w_context]

/-- C3 witness: the amended theorem applied at the counterexample frame
(`node_id = 1`, `context_id = 0`): a write materializes the scope chained
to `init`. -/
theorem c3_w_context_materialization_witness :
    ∃ f', Pyplan.w_context (V := Nat)
        ⟨⟨[[], [(0, 5)]], [(0, [1, 0])]⟩, [(1, ⟨1, 0, 0, none, [], []⟩)],
         [1, 0], ⟨1, 0, 0, none, [], []⟩⟩ = some f' ∧
      f'.store.layers.length = 3 ∧
      f'.selected.context_id = 1 ∧
      f'.context = [2, 0] := by
  have h := c3_w_context_materialization (V := Nat)
    ⟨⟨[[], [(0, 5)]], [(0, [1, 0])]⟩, [(1, ⟨1, 0, 0, none, [], []⟩)],
     [1, 0], ⟨1, 0, 0, none, [], []⟩⟩
    (by decide) (fun _ h0 => absurd rfl h0)
  obtain ⟨f', heq, hlen, hctx, _, _, hinit, _, _⟩ := h
  exact ⟨f', heq, by rw [hlen]; decide, hctx, hinit (Or.inr rfl)⟩

namespace Pyplan

/-! ## Node creation and id allocation (`graph.py` / `store.py`)

The default backing store is `MemoryCollectionMap`, a Python dict whose
`next_id()` returns `len(self)`.  `Graph.create_node` computes the new
node's key as `node_id or self._collection.next_id()` — Python `or`
truthiness, so both `None` and `0` fall back to `next_id()` — inserts the
record, and then wires the requested relationships with
`create_relationship`, which re-persists each side it changed. -/

/-- `MemoryCollectionMap.next_id()`: `len(self)`. -/
def next_id (c : List (Nat × GNode)) : Nat := c.length

/-- `Graph.create_relationship(source_node, target_node)`: two independent
membership checks; each side that changed is re-serialized and put back
into the collection.  Returns the updated source object, target object and
collection. -/
def create_relationship (c : List (Nat × GNode)) (source_node target_node : GNode) :
    GNode × GNode × List (Nat × GNode) :=
  let step1 :=
    if target_node.node_id ∈ source_node.out_nodes_ids then (source_node, c)
    else
      let s' : GNode := ⟨source_node.node_id, source_node.in_nodes_ids,
                         source_node.out_nodes_ids ++ [target_node.node_id]⟩
      (s', dictPut s'.node_id s' c)
  let step2 :=
    if source_node.node_id ∈ target_node.in_nodes_ids then (target_node, step1.2)
    else
      let t' : GNode := ⟨target_node.node_id,
                         target_node.in_nodes_ids ++ [source_node.node_id],
                         target_node.out_nodes_ids⟩
      (t', dictPut t'.node_id t' step1.2)
  (step1.1, step2.1, step2.2)

/-- `create_relationships(in_nodes, node)`: one `create_relationship` per
parent, threading the node object (mutated in place in Python) and the
collection. -/
def wire_in_nodes (c : List (Nat × GNode)) (node : GNode) :
    List GNode → GNode × List (Nat × GNode)
  | [] => (node, c)
  | p :: ps =>
      let r := create_relationship c p node
      wire_in_nodes r.2.2 r.2.1 ps

/-- `create_relationships(node, out_nodes)`: one `create_relationship` per
child, threading the node object and the collection. -/
def wire_out_nodes (c : List (Nat × GNode)) (node : GNode) :
    List GNode → GNode × List (Nat × GNode)
  | [] => (node, c)
  | t :: ts =>
      let r := create_relationship c node t
      wire_out_nodes r.2.2 r.1 ts

/-- `Graph.create_node(node_id, in_nodes, out_nodes)` over the default
in-memory collection: `node_id or next_id()` (truthiness: an explicit `0`
also falls back to `next_id()`), insert the fresh record, then wire the
relationships.  Returns the node object and the updated collection. -/
def create_node (c : List (Nat × GNode)) (node_id : Option Nat)
    (in_nodes out_nodes : List GNode) : GNode × List (Nat × GNode) :=
  let nid := match node_id with
    | some i => if i = 0 then next_id c else i
    | none => next_id c
  let node : GNode := ⟨nid, [], []⟩
  let c₁ := dictPut nid node c
  let r₁ := wire_in_nodes c₁ node in_nodes
  wire_out_nodes r₁.2 r₁.1 out_nodes

/-! ### Key-set lemmas -/

theorem dictKeys_dictPut_mem {κ α : Type} [DecidableEq κ] (k : κ) (v : α)
    (d : List (κ × α)) (h : k ∈ dictKeys d) :
    dictKeys (dictPut k v d) = dictKeys d := by
  induction d with
  | nil => simp [dictKeys] at h
  | cons e rest ih =>
      obtain ⟨k', v'⟩ := e
      by_cases hk : k' = k
      · simp [dictPut, dictKeys, hk]
      · simp only [dictKeys, List.map_cons] at h
        simp only [dictPut, if_neg hk, dictKeys, List.map_cons]
        have hmem : k ∈ dictKeys rest := by
          rcases List.mem_cons.mp h with h' | h'
          · exact absurd h'.symm hk
          · exact h'
        rw [show List.map Prod.fst (dictPut k v rest) = dictKeys (dictPut k v rest) from rfl,
            ih hmem]
        rfl

theorem dictKeys_dictPut_not_mem {κ α : Type} [DecidableEq κ] (k : κ) (v : α)
    (d : List (κ × α)) (h : k ∉ dictKeys d) :
    dictKeys (dictPut k v d) = dictKeys d ++ [k] := by
  induction d with
  | nil => simp [dictPut, dictKeys]
  | cons e rest ih =>
      obtain ⟨k', v'⟩ := e
      by_cases hk : k' = k
      · exact absurd (by simp [dictKeys, hk]) h
      · simp only [dictKeys, List.map_cons] at h
        simp only [dictPut, if_neg hk, dictKeys, List.map_cons]
        have hmem : k ∉ dictKeys rest := fun hc => h (List.mem_cons.mpr (Or.inr hc))
        rw [show List.map Prod.fst (dictPut k v rest) = dictKeys (dictPut k v rest) from rfl,
            ih hmem]
        rfl

theorem dictKeys_length {κ α : Type} (d : List (κ × α)) :
    (dictKeys d).length = d.length := by
  simp [dictKeys]

theorem create_relationship_source_id (c : List (Nat × GNode)) (s t : GNode) :
    (create_relationship c s t).1.node_id = s.node_id := by
  simp only [create_relationship]
  split <;> rfl

theorem create_relationship_target_id (c : List (Nat × GNode)) (s t : GNode) :
    (create_relationship c s t).2.1.node_id = t.node_id := by
  simp only [create_relationship]
  split <;> rfl

theorem create_relationship_keys (c : List (Nat × GNode)) (s t : GNode)
    (hs : s.node_id ∈ dictKeys c) (ht : t.node_id ∈ dictKeys c) :
    dictKeys (create_relationship c s t).2.2 = dictKeys c := by
  by_cases h1 : t.node_id ∈ s.out_nodes_ids
  · by_cases h2 : s.node_id ∈ t.in_nodes_ids
    · simp [create_relationship, h1, h2]
    · simp only [create_relationship, if_pos h1, if_neg h2]
      exact dictKeys_dictPut_mem _ _ _ ht
  · by_cases h2 : s.node_id ∈ t.in_nodes_ids
    · simp only [create_relationship, if_neg h1, if_pos h2]
      exact dictKeys_dictPut_mem _ _ _ hs
    · simp only [create_relationship, if_neg h1, if_neg h2]
      rw [dictKeys_dictPut_mem _ _ _ (by rw [dictKeys_dictPut_mem _ _ _ hs]; exact ht)]
      exact dictKeys_dictPut_mem _ _ _ hs

theorem wire_in_nodes_keys (ps : List GNode) (c : List (Nat × GNode)) (node : GNode)
    (hn : node.node_id ∈ dictKeys c) (hp : ∀ p ∈ ps, p.node_id ∈ dictKeys c) :
    dictKeys (wire_in_nodes c node ps).2 = dictKeys c ∧
    (wire_in_nodes c node ps).1.node_id = node.node_id := by
  induction ps generalizing c node with
  | nil => exact ⟨rfl, rfl⟩
  | cons p ps ih =>
      simp only [wire_in_nodes]
      have hk : dictKeys (create_relationship c p node).2.2 = dictKeys c :=
        create_relationship_keys c p node (hp p (by simp)) hn
      have hid : (create_relationship c p node).2.1.node_id = node.node_id :=
        create_relationship_target_id c p node
      have h := ih (create_relationship c p node).2.2 (create_relationship c p node).2.1
        (by rw [hk, hid]; exact hn)
        (fun q hq => by rw [hk]; exact hp q (by simp [hq]))
      rw [hk] at h
      rw [hid] at h
      exact h

theorem wire_out_nodes_keys (ts : List GNode) (c : List (Nat × GNode)) (node : GNode)
    (hn : node.node_id ∈ dictKeys c) (ht : ∀ t ∈ ts, t.node_id ∈ dictKeys c) :
    dictKeys (wire_out_nodes c node ts).2 = dictKeys c ∧
    (wire_out_nodes c node ts).1.node_id = node.node_id := by
  induction ts generalizing c node with
  | nil => exact ⟨rfl, rfl⟩
  | cons t ts ih =>
      simp only [wire_out_nodes]
      have hk : dictKeys (create_relationship c node t).2.2 = dictKeys c :=
        create_relationship_keys c node t hn (ht t (by simp))
      have hid : (create_relationship c node t).1.node_id = node.node_id :=
        create_relationship_source_id c node t
      have h := ih (create_relationship c node t).2.2 (create_relationship c node t).1
        (by rw [hk, hid]; exact hn)
        (fun q hq => by rw [hk]; exact ht q (by simp [hq]))
      rw [hk] at h
      rw [hid] at h
      exact h

/-- The collection states reachable from an empty graph by `create_node`
calls that never supply an explicit `node_id` and only link to nodes
already stored in the collection. -/
inductive AutoReached : List (Nat × GNode) → Prop
  | empty : AutoReached []
  | create (c : List (Nat × GNode)) (ins outs : List GNode) :
      AutoReached c →
      (∀ p ∈ ins, p.node_id ∈ dictKeys c) →
      (∀ t ∈ outs, t.node_id ∈ dictKeys c) →
      AutoReached (create_node c none ins outs).2

/-- The key-set invariant of auto-id graphs: the keys are exactly
`0, 1, …, len - 1` in insertion order. -/
theorem auto_reached_keys (c : List (Nat × GNode)) (h : AutoReached c) :
    dictKeys c = List.range c.length := by
  induction h with
  | empty => rfl
  | create c ins outs _ hp ht ih =>
      have hfresh : c.length ∉ dictKeys c := by
        rw [ih]
        simp
      simp only [create_node, next_id]
      set node : GNode := ⟨c.length, [], []⟩ with hnode
      set c₁ := dictPut c.length node c with hc₁
      have hkeys₁ : dictKeys c₁ = dictKeys c ++ [c.length] :=
        dictKeys_dictPut_not_mem _ _ _ hfresh
      set r₁ := wire_in_nodes c₁ node ins with hr₁
      have hw₁ : dictKeys r₁.2 = dictKeys c₁ ∧ r₁.1.node_id = node.node_id :=
        wire_in_nodes_keys ins c₁ node (by rw [hkeys₁]; simp)
          (fun p hpm => by rw [hkeys₁]; exact List.mem_append_left _ (hp p hpm))
      set r₂ := wire_out_nodes r₁.2 r₁.1 outs with hr₂
      have hw₂ : dictKeys r₂.2 = dictKeys r₁.2 ∧ r₂.1.node_id = r₁.1.node_id :=
        wire_out_nodes_keys outs r₁.2 r₁.1
          (by rw [hw₁.1, hw₁.2, hkeys₁]; simp)
          (fun t htm => by rw [hw₁.1, hkeys₁]; exact List.mem_append_left _ (ht t htm))
      have hkeys : dictKeys r₂.2 = List.range (c.length + 1) := by
        rw [hw₂.1, hw₁.1, hkeys₁, ih, ← List.range_succ]
      have hlen : r₂.2.length = c.length + 1 := by
        rw [← dictKeys_length, hkeys, List.length_range]
      rw [hkeys, hlen]

end Pyplan

/-- C8 (counterexample): a single `create_node` call that supplies the
explicit id `1` on an empty graph leaves the collection with live key `1`
and `len = 1`, so `next_id()` returns `1` — the id of a live node.  (A
subsequent auto-id `create_node` would silently overwrite node 1.)  The
claim's "including calls that supply an explicit node_id" is therefore
false. -/
theorem c8_explicit_id_collides :
    Pyplan.create_node [] (some 1) [] []
        = (⟨1, [], []⟩, [(1, ⟨1, [], []⟩)]) ∧
    Pyplan.next_id [(1, (⟨1, [], []⟩ : Pyplan.GNode))] = 1 ∧
    1 ∈ Pyplan.dictKeys [(1, (⟨1, [], []⟩ : Pyplan.GNode))] := by
  decide

/-- C8 (amended): for every Graph over the default in-memory collection and
after every sequence of `create_node` calls that never supply an explicit
`node_id` (linking only to nodes already in the collection), `next_id()`
returns an id that is not currently the id of any live node — node ids
stay unique.  With an explicit id the guarantee fails
(`c8_explicit_id_collides`). -/
theorem c8_auto_next_id_fresh (c : List (Nat × Pyplan.GNode))
    (h : Pyplan.AutoReached c) :
    Pyplan.next_id c ∉ Pyplan.dictKeys c := by
  rw [Pyplan.auto_reached_keys c h]
  simp [Pyplan.next_id]

/-- C8 witness: after two auto-id creations (the second linked to the
first), `next_id` is fresh. -/
theorem c8_auto_next_id_fresh_witness :
    Pyplan.next_id
        (Pyplan.create_node (Pyplan.create_node [] none [] []).2 none
          [(Pyplan.create_node [] none [] []).1] []).2
      ∉ Pyplan.dictKeys
        (Pyplan.create_node (Pyplan.create_node [] none [] []).2 none
          [(Pyplan.create_node [] none [] []).1] []).2 :=
  c8_auto_next_id_fresh _
    (Pyplan.AutoReached.create _ _ _
      (Pyplan.AutoReached.create _ _ _ Pyplan.AutoReached.empty
        (by intro p hp; cases hp) (by intro t ht; cases ht))
      (by intro p hp; cases hp with
          | head => decide
          | tail _ h => cases h)
      (by intro t ht; cases ht))

namespace Pyplan

/-! ## Deserialization freshness of `get_node`
(`graph.py` `Graph.get_node`, `serializers.py` `NodeSerializer`,
`nodes.py` `Node.__init__`)

`Graph.get_node` builds every returned `Node` through
`NodeSerializer.from_data`, and `Node.__init__` copies the record's
neighbour-id lists into *fresh* `set` objects (`set(in_nodes_ids or ())`);
conversely `to_data` copies the node's sets into fresh lists
(`list(node.in_nodes_ids)`), and the scalar attributes (`weight`,
`reference`, `context_id`) pass through as immutable values — so a stored
record never shares mutable structure with any `Node` object.

The model makes the aliasing question explicit with a small heap of
mutable set objects: records (`NRec`) are pure data, a deserialized node
(`HNode`) holds heap addresses for its two sets, and `get_node` allocates
fresh addresses — mirroring the `set(...)` copies.  Mutating a node is
mutating the heap cells it points to (`mutate_set`) or changing its scalar
fields (a new `HNode` value). -/

/-- A serialized node record, as stored in the collection: pure data
(`to_data` copies the id sets into lists). -/
structure NRec where
  node_id : Nat
  in_nodes_ids : List Nat
  out_nodes_ids : List Nat
  weight : Option Int
deriving Repr, DecidableEq

/-- A deserialized `Node` object: scalar attributes by value, the two
neighbour-id sets as heap addresses of mutable set objects. -/
structure HNode where
  node_id : Nat
  inAddr : Nat
  outAddr : Nat
  weight : Option Int
deriving Repr, DecidableEq

/-- A graph state: the record collection plus the heap of set objects. -/
structure GState where
  coll : List (Nat × NRec)
  heap : List (List Nat)
deriving Repr, DecidableEq

/-- Read the mutable set object at a heap address. -/
def readSet (s : GState) (a : Nat) : List Nat := s.heap.getD a []

/-- `Graph.get_node(node_id)`: look the record up and deserialize a fresh
`Node` — `Node.__init__` allocates two fresh sets from the record's lists.
`none` models the `KeyError` for an unknown id. -/
def get_node (s : GState) (k : Nat) : Option (HNode × GState) :=
  (dictGet k s.coll).map fun r =>
    (⟨r.node_id, s.heap.length, s.heap.length + 1, r.weight⟩,
     ⟨s.coll, s.heap ++ [r.in_nodes_ids, r.out_nodes_ids]⟩)

/-- Mutating a `Node`'s neighbour-id set in place (`node.in_nodes_ids.add`
etc.): overwrite the heap cell it points to. -/
def mutate_set (s : GState) (a : Nat) (contents : List Nat) : GState :=
  ⟨s.coll, s.heap.set a contents⟩

/-- `NodeSerializer.to_data(node)`: serialize the node by copying its set
objects into pure lists. -/
def to_data (s : GState) (n : HNode) : NRec :=
  ⟨n.node_id, readSet s n.inAddr, readSet s n.outAddr, n.weight⟩

/-- `Graph.update_node(node)`: put the serialized record back into the
collection. -/
def update_node (s : GState) (n : HNode) : GState :=
  ⟨dictPut n.node_id (to_data s n) s.coll, s.heap⟩

theorem listGetD_append_right {α : Type} (l l' : List α) (i : Nat) (d : α)
    (h : l.length ≤ i) :
    (l ++ l').getD i d = l'.getD (i - l.length) d := by
  simp [List.getD, List.get?_eq_getElem?, List.getElem?_append_right h]

end Pyplan

/-- C10: `get_node` deserializes a fresh `Node` from the stored record: it
does not change the collection, mutating the returned node's set objects
(at any heap address, with any contents) still does not change the
collection, and a later `get_node` for the same id returns a node holding
the same serialized data as the first one — the mutation is invisible.
Explicitly calling `update_node` is what makes a node's current data
visible: it stores exactly the node's serialization under its id. -/
theorem c10_get_node_is_fresh (s : Pyplan.GState) (k : Nat) (n : Pyplan.HNode)
    (s₁ : Pyplan.GState) (h : Pyplan.get_node s k = some (n, s₁)) :
    s₁.coll = s.coll ∧
    (∀ a contents, (Pyplan.mutate_set s₁ a contents).coll = s.coll) ∧
    (∀ a contents m s₂,
      Pyplan.get_node (Pyplan.mutate_set s₁ a contents) k = some (m, s₂) →
      Pyplan.to_data s₂ m = Pyplan.to_data s₁ n) ∧
    (∀ (s' : Pyplan.GState) (n' : Pyplan.HNode),
      Pyplan.dictGet n'.node_id (Pyplan.update_node s' n').coll
        = some (Pyplan.to_data s' n')) := by
  cases hr : Pyplan.dictGet k s.coll with
  | none => simp [Pyplan.get_node, hr] at h
  | some r =>
      simp only [Pyplan.get_node, hr, Option.map_some, Option.some.injEq,
        Prod.mk.injEq] at h
      obtain ⟨rfl, rfl⟩ := h
      refine ⟨rfl, fun a contents => rfl, ?_, ?_⟩
      · intro a contents m s₂ h₂
        simp only [Pyplan.get_node, Pyplan.mutate_set, hr, Option.map_some,
          Option.some.injEq, Prod.mk.injEq] at h₂
        obtain ⟨rfl, rfl⟩ := h₂
        simp only [Pyplan.to_data, Pyplan.readSet, Pyplan.NRec.mk.injEq]
        refine ⟨trivial, ?_, ?_, trivial⟩
        · rw [Pyplan.listGetD_append_right _ _ _ _ (le_refl _),
              Pyplan.listGetD_append_right _ _ _ _ (le_refl _)]
          simp
        · rw [Pyplan.listGetD_append_right _ _ _ _ (by simp),
              Pyplan.listGetD_append_right _ _ _ _ (by simp)]
          simp
      · intro s' n'
        exact Pyplan.dictGet_dictPut_self _ _ _

/-- C10 witness: a concrete record `4 ↦ (in {1}, out {2}, weight 3)`.
`get_node`, mutate the returned node's in-set to `{9}`, `get_node` again:
the collection is unchanged and the re-read node serializes to the
original record data. -/
theorem c10_get_node_is_fresh_witness :
    (Pyplan.mutate_set ⟨[(4, ⟨4, [1], [2], some 3⟩)], [[1], [2]]⟩ 0 [9]).coll
      = [(4, (⟨4, [1], [2], some 3⟩ : Pyplan.NRec))] ∧
    Pyplan.to_data ⟨[(4, ⟨4, [1], [2], some 3⟩)], [[9], [2], [1], [2]]⟩
        ⟨4, 2, 3, some 3⟩
      = Pyplan.to_data ⟨[(4, ⟨4, [1], [2], some 3⟩)], [[1], [2]]⟩ ⟨4, 0, 1, some 3⟩ := by
  have h := c10_get_node_is_fresh ⟨[(4, ⟨4, [1], [2], some 3⟩)], []⟩ 4
    ⟨4, 0, 1, some 3⟩ ⟨[(4, ⟨4, [1], [2], some 3⟩)], [[1], [2]]⟩ (by decide)
  exact ⟨h.2.1 0 [9], h.2.2.1 0 [9] ⟨4, 2, 3, some 3⟩
    ⟨[(4, ⟨4, [1], [2], some 3⟩)], [[9], [2], [1], [2]]⟩ (by decide)⟩

deriving instance DecidableEq for Except

namespace Pyplan

/-! ## The solver loop (`pyplan/solver.py`)

`Solver.eval` drives `step` / `next_frame` until the solution predicate
holds.  The embedder-supplied capabilities (solution predicate, evaluator,
test, execute, expand) are abstracted as function parameters that may
raise (`Except E`); the rest of the step — budget check, `instantiate`,
`eval_nodes`, `select`, `close_all`, frame transition — is translated
statement by statement.

The read-only builtins (`node_counter`, `open_nodes_counter`) are
*snapshots* taken by `Frame._init_builtins` at frame creation and in
`next_frame`, not live values — capabilities called mid-step see the
counters from the start of the step.  `sget` reads the live store, which
is abstracted as a world value `W` threaded through `execute` (the only
capability Python hands the write namespace to).  The frame's `context` is
tracked by its scope id (`-1` = the init scope), which is all `next_frame`
derives it from; scope contents live in the `ChainStore` model above.

`Solver.select` iterates the generator returned by `get_open_nodes()`
while `close_node` removes entries from the same list the generator walks.
`selectFwdAux` (MIN: a forward list iterator holding an index into the
live list) and `selectRevAux` (MAX: CPython's `reversed` iterator, which
yields `list[i]` while `0 ≤ i < len(list)` and decrements) reproduce that
index semantics exactly. -/

/-- The ways a step can terminate abnormally: `MaxNodesReachedError`
(carrying `node_counter`), `NoMoreNodesError` from `select`, Python
`KeyError` / `TypeError` / `IndexError` from malformed states, fuel
exhaustion of the model's loop, and `cap e` — an exception object `e`
raised inside an embedder capability, which the solver code never catches
or wraps. -/
inductive Err (E : Type) where
  | maxNodesReached (node_counter : Nat)
  | noMoreNodes
  | keyError
  | typeError
  | indexError
  | outOfFuel
  | cap (e : E)
deriving Repr, DecidableEq

/-- The read-only builtin counters (`Frame.ro_keys`). -/
structure Counters where
  node_counter : Nat
  open_nodes_counter : Nat
deriving Repr, DecidableEq

/-- A `Solver` configuration: `max_nodes`, `backtrack` and the five
embedder capabilities.  `expand` receives only the selected node and the
(static) domain, hence no counters or world. -/
structure Cfg (E W : Type) where
  max_nodes : Option Nat
  backtrack : Bool
  is_solution : Counters → W → Bool
  evaluator : Option SNode → List SNode → Counters → W → Except E (List (Option Int))
  test : SNode → Counters → W → Except E Bool
  execute : SNode → Counters → W → Except E W
  expand : SNode → Except E (List Nat)

/-- The `Frame` state the solver loop threads: `node_counter`, `selected`,
the current context's scope id (`-1` = init), the snapshot counters
(`ro_builtins`), and the abstract store world. -/
structure EFrame (W : Type) where
  node_counter : Nat
  selected : Option SNode
  context : Int
  ro : Counters
  world : W
deriving Repr, DecidableEq

/-- The full solver state: frame, frontier, and the search space's node
collection. -/
structure SolverSt (W : Type) where
  frame : EFrame W
  sspace : SSpace
  snodes : List (Nat × SNode)
deriving Repr, DecidableEq

/-- `SearchSpace.create_node` for one instantiated search node
(`search_space.node_builder(reference=…, in_nodes=parent, context_id=…)`):
auto id = `next_id()` = `len(collection)`, insert the record, then
`create_relationship(parent, node)` updates both sides.  Returns the node
object, the (possibly updated) parent object and the collection. -/
def snode_create (snodes : List (Nat × SNode)) (ref : Nat) (ctx : Int)
    (parent : Option SNode) : SNode × Option SNode × List (Nat × SNode) :=
  let nid := snodes.length
  let n0 : SNode := ⟨nid, ref, ctx, none, [], []⟩
  let c₁ := dictPut nid n0 snodes
  match parent with
  | none => (n0, none, c₁)
  | some p =>
      let step1 :=
        if nid ∈ p.out_nodes_ids then (p, c₁)
        else
          let p' : SNode := ⟨p.node_id, p.reference, p.context_id, p.weight,
                             p.in_nodes_ids, p.out_nodes_ids ++ [nid]⟩
          (p', dictPut p'.node_id p' c₁)
      let step2 :=
        if p.node_id ∈ n0.in_nodes_ids then (n0, step1.2)
        else
          let n' : SNode := ⟨n0.node_id, n0.reference, n0.context_id, n0.weight,
                             n0.in_nodes_ids ++ [p.node_id], n0.out_nodes_ids⟩
          (n', dictPut n'.node_id n' step1.2)
      (step2.1, some step1.1, step2.2)

/-- The loop of `Solver.instantiate`: one `snode_create` per domain
candidate id, threading the parent object and the collection. -/
def instantiate_go (ctx : Int) (parent : Option SNode) (snodes : List (Nat × SNode)) :
    List Nat → List SNode × Option SNode × List (Nat × SNode)
  | [] => ([], parent, snodes)
  | ref :: rest =>
      let r := snode_create snodes ref ctx parent
      let rr := instantiate_go ctx r.2.1 r.2.2 rest
      (r.1 :: rr.1, rr.2.1, rr.2.2)

/-- `Solver.instantiate(dmn_nodes, frame, search_space)`: the inherited
`context_id` is computed once (`parent.context_id if parent else
INIT_CONTEXT_ID`), then each candidate is instantiated. -/
def instantiate (current : List Nat) (parent : Option SNode)
    (snodes : List (Nat × SNode)) : List SNode × Option SNode × List (Nat × SNode) :=
  let ctx := match parent with
    | some p => p.context_id
    | none => INIT_CONTEXT_ID
  instantiate_go ctx parent snodes current

/-- The loop of `Solver.eval_nodes` over `zip(instances, evaluations)`:
candidates with an absent weight are discarded; weighted ones get their
`weight` set, are persisted (`update_node`) and opened into the frontier. -/
def eval_nodes_go : List (SNode × Option Int) → List (Nat × SNode) → SSpace →
    List (Nat × SNode) × SSpace
  | [], snodes, sp => (snodes, sp)
  | (_, none) :: rest, snodes, sp => eval_nodes_go rest snodes sp
  | (n, some w) :: rest, snodes, sp =>
      let n' : SNode := ⟨n.node_id, n.reference, n.context_id, some w,
                         n.in_nodes_ids, n.out_nodes_ids⟩
      eval_nodes_go rest (dictPut n'.node_id n' snodes) (open_node sp n'.node_id w)

theorem scanFor_lt (k : Nat) (l : List Nat) (j : Nat) (h : scanFor k l = some j) :
    j < l.length := by
  induction l generalizing j with
  | nil => simp [scanFor] at h
  | cons a l ih =>
      by_cases ha : a = k
      · simp only [scanFor, if_pos ha, Option.some.injEq] at h
        simp [← h]
      · simp only [scanFor, if_neg ha] at h
        cases hj : scanFor k l with
        | none => rw [hj] at h; simp at h
        | some j' =>
            rw [hj] at h
            simp only [Option.map_some', Option.some.injEq] at h
            have := ih j' hj
            simp only [List.length_cons]
            omega

theorem close_node_length (sp : SSpace) (w : Int) (k : Nat) (sp' : SSpace)
    (h : close_node sp w k = some sp') :
    sp'.open_nodes.length + 1 = sp.open_nodes.length := by
  simp only [close_node] at h
  cases hs : scanFor k (sp.open_nodes.drop (bisect_left sp.weights w)) with
  | none => rw [hs] at h; simp at h
  | some j =>
      rw [hs] at h
      simp only [Option.map_some', Option.some.injEq] at h
      have hj := scanFor_lt _ _ _ hs
      rw [List.length_drop] at hj
      have hidx : bisect_left sp.weights w + j < sp.open_nodes.length := by omega
      rw [← h]
      simp only [List.length_eraseIdx_of_lt hidx]
      omega

/-- `Solver.select` under the `MIN` selector: a forward Python list
iterator with index `i` into the *live* `open_nodes` list.  Each yielded
id is looked up (`get_node`), tested, and closed (`close_node` mutates the
list under the iterator); a passing candidate is returned.  The final
frontier state is returned alongside the result (the `SearchSpace` object
survives the `NoMoreNodesError`). -/
def selectFwdAux {E W : Type} (test : SNode → Counters → W → Except E Bool)
    (cnt : Counters) (world : W) (snodes : List (Nat × SNode))
    (sp : SSpace) (i : Nat) : Except (Err E) SNode × SSpace :=
  if h : i < sp.open_nodes.length then
    let k := sp.open_nodes[i]
    match dictGet k snodes with
    | none => (.error .keyError, sp)
    | some n =>
        match test n cnt world with
        | .error e => (.error (.cap e), sp)
        | .ok b =>
            match n.weight with
            | none => (.error .typeError, sp)
            | some w =>
                match hcl : close_node sp w k with
                | none => (.error .indexError, sp)
                | some sp' =>
                    if b then (.ok n, sp')
                    else selectFwdAux test cnt world snodes sp' (i + 1)
  else (.error .noMoreNodes, sp)
termination_by sp.open_nodes.length - i
decreasing_by
  have := close_node_length sp w k sp' hcl
  omega

/-- `Solver.select` under the `MAX` selector: CPython's `reversed` list
iterator, which yields `list[j]` while `0 ≤ j < len(list)` and decrements
`j`; `i = j + 1` encodes the iterator position (`i = 0`: exhausted). -/
def selectRevAux {E W : Type} (test : SNode → Counters → W → Except E Bool)
    (cnt : Counters) (world : W) (snodes : List (Nat × SNode)) :
    SSpace → Nat → Except (Err E) SNode × SSpace
  | sp, 0 => (.error .noMoreNodes, sp)
  | sp, j + 1 =>
      if h : j < sp.open_nodes.length then
        let k := sp.open_nodes[j]
        match dictGet k snodes with
        | none => (.error .keyError, sp)
        | some n =>
            match test n cnt world with
            | .error e => (.error (.cap e), sp)
            | .ok b =>
                match n.weight with
                | none => (.error .typeError, sp)
                | some w =>
                    match close_node sp w k with
                    | none => (.error .indexError, sp)
                    | some sp' =>
                        if b then (.ok n, sp')
                        else selectRevAux test cnt world snodes sp' j
      else (.error .noMoreNodes, sp)

/-- `Solver.select(frame, search_space)`: iterate `get_open_nodes()` in
selector order — `reversed(open_nodes)` for `MAX` (iterator created at the
current length), the list itself for `MIN` — testing and closing each
yielded candidate; `NoMoreNodesError` when the iterator is exhausted. -/
def select {E W : Type} (test : SNode → Counters → W → Except E Bool)
    (cnt : Counters) (world : W) (sp : SSpace) (snodes : List (Nat × SNode)) :
    Except (Err E) SNode × SSpace :=
  match sp.selector with
  | .max => selectRevAux test cnt world snodes sp sp.open_nodes.length
  | .min => selectFwdAux test cnt world snodes sp 0

/-- `Solver.step(current_nodes, frame, search_space)`: budget check,
instantiate, evaluate/open, select, execute, optional `close_all`, expand.
Returns the selected node, the updated solver state and the next round's
candidate ids. -/
def step {E W : Type} (cfg : Cfg E W) (current : List Nat) (st : SolverSt W) :
    Except (Err E) (SNode × SolverSt W × List Nat) :=
  if cfg.max_nodes = some st.frame.node_counter then
    .error (.maxNodesReached st.frame.node_counter)
  else
    let r := instantiate current st.frame.selected st.snodes
    match cfg.evaluator r.2.1 r.1 st.frame.ro st.frame.world with
    | .error e => .error (.cap e)
    | .ok evals =>
        let r₂ := eval_nodes_go (r.1.zip evals) r.2.2 st.sspace
        match select cfg.test st.frame.ro st.frame.world r₂.2 r₂.1 with
        | (.error err, _) => .error err
        | (.ok sel, sp₃) =>
            match cfg.execute sel st.frame.ro st.frame.world with
            | .error e => .error (.cap e)
            | .ok w' =>
                let sp₄ := if cfg.backtrack then sp₃ else close_all sp₃
                match cfg.expand sel with
                | .error e => .error (.cap e)
                | .ok next =>
                    .ok (sel,
                         ⟨⟨st.frame.node_counter, some sel, st.frame.context,
                           st.frame.ro, w'⟩, sp₄, r₂.1⟩,
                         next)

/-- `Frame.next_frame()`: increment `node_counter`, re-derive the context
from the selected node's `context_id` (`store.get_scope` when it is not
the `-1` sentinel, `store.init` otherwise — as scope ids both give
`context_id` itself), and refresh the snapshot counters.  `sel` is the
node `step` has just stored in `frame.selected`. -/
def next_frame {W : Type} (st : SolverSt W) (sel : SNode) : SolverSt W :=
  ⟨⟨st.frame.node_counter + 1, st.frame.selected,
    (if sel.context_id ≠ INIT_CONTEXT_ID then sel.context_id else INIT_CONTEXT_ID),
    ⟨st.frame.node_counter + 1, st.sspace.open_nodes.length⟩,
    st.frame.world⟩, st.sspace, st.snodes⟩

/-- The `while not self.is_solution(**frame.ro_builtins)` loop of
`Solver.eval`, with explicit fuel for the (possibly non-terminating)
Python loop. -/
def eval_loop {E W : Type} (cfg : Cfg E W) :
    Nat → List Nat → SolverSt W → Except (Err E) (SolverSt W)
  | 0, _, _ => .error .outOfFuel
  | fuel + 1, current, st =>
      if cfg.is_solution st.frame.ro st.frame.world then .ok st
      else
        match step cfg current st with
        | .error e => .error e
        | .ok (sel, st', next) => eval_loop cfg fuel next (next_frame st' sel)

/-- `Frame.__init__` + `Frame._init_builtins`: counter 0, nothing
selected, context = the store's init scope, snapshot counters taken from
the supplied search space. -/
def init_st {W : Type} (w₀ : W) (sp₀ : SSpace) (snodes₀ : List (Nat × SNode)) :
    SolverSt W :=
  ⟨⟨0, none, INIT_CONTEXT_ID, ⟨0, sp₀.open_nodes.length⟩, w₀⟩, sp₀, snodes₀⟩

/-- `Solver.eval(*args, store=…, search_space=…)`: build the initial
frame over the given world and search space and run the loop on the
initial candidate ids. -/
def solver_eval {E W : Type} (cfg : Cfg E W) (fuel : Nat) (args : List Nat)
    (w₀ : W) (sp₀ : SSpace) (snodes₀ : List (Nat × SNode)) :
    Except (Err E) (SolverSt W) :=
  eval_loop cfg fuel args (init_st w₀ sp₀ snodes₀)

/-- The first `k` iterations of the solver loop complete normally from the
given state (each `step` returns `ok` and the run continues through
`next_frame`). -/
def steps_ok {E W : Type} (cfg : Cfg E W) : Nat → List Nat → SolverSt W → Prop
  | 0, _, _ => True
  | k + 1, current, st =>
      ∃ sel st' next, step cfg current st = .ok (sel, st', next) ∧
        steps_ok cfg k next (next_frame st' sel)

/-- A successful `step` leaves `node_counter` and the snapshot counters
untouched and stores the selected node in the frame. -/
theorem step_ok_shape {E W : Type} (cfg : Cfg E W) (current : List Nat)
    (st : SolverSt W) (sel : SNode) (st' : SolverSt W) (next : List Nat)
    (h : step cfg current st = .ok (sel, st', next)) :
    st'.frame.node_counter = st.frame.node_counter ∧
    st'.frame.selected = some sel := by
  simp only [step] at h
  split at h
  · exact absurd h (by simp)
  · split at h
    · exact absurd h (by simp)
    · split at h
      · exact absurd h (by simp)
      · split at h
        · exact absurd h (by simp)
        · split at h
          · exact absurd h (by simp)
          · simp only [Except.ok.injEq, Prod.mk.injEq] at h
            obtain ⟨hsel, hst, -⟩ := h
            subst hst
            subst hsel
            exact ⟨rfl, rfl⟩

/-- With the solution predicate always false, a run whose first `k` steps
complete normally hits the budget check exactly when `node_counter`
reaches `max_nodes`, and the loop reports that counter. -/
theorem eval_loop_budget_aux {E W : Type} (cfg : Cfg E W)
    (hsol : ∀ cnt w, cfg.is_solution cnt w = false) :
    ∀ (k fuel : Nat) (current : List Nat) (st : SolverSt W),
      cfg.max_nodes = some (st.frame.node_counter + k) →
      steps_ok cfg k current st →
      k < fuel →
      eval_loop cfg fuel current st
        = .error (.maxNodesReached (st.frame.node_counter + k)) := by
  intro k
  induction k with
  | zero =>
      intro fuel current st hmax _ hfuel
      cases fuel with
      | zero => omega
      | succ f =>
          have hstep : step cfg current st
              = .error (Err.maxNodesReached st.frame.node_counter) := by
            simp only [step]
            rw [if_pos (by rw [hmax, Nat.add_zero])]
          simp only [eval_loop, hsol, hstep]
          rw [Nat.add_zero]
          simp
  | succ k ih =>
      intro fuel current st hmax hsteps hfuel
      cases fuel with
      | zero => omega
      | succ f =>
          obtain ⟨sel, st', next, hstep, hrest⟩ := hsteps
          have hshape := step_ok_shape cfg current st sel st' next hstep
          have hcounter : (next_frame st' sel).frame.node_counter
              = st.frame.node_counter + 1 := by
            simp [next_frame, hshape.1]
          have hrec := ih f next (next_frame st' sel)
            (by rw [hcounter, hmax]; exact congrArg some (by omega))
            hrest (by omega)
          have harith : (next_frame st' sel).frame.node_counter + k
              = st.frame.node_counter + (k + 1) := by
            rw [hcounter]; omega
          rw [harith] at hrec
          simp only [eval_loop, hsol, hstep]
          simp only [Bool.false_eq_true, if_false]
          exact hrec

end Pyplan

/-- C5: with `max_nodes = N`, the solution predicate always false, and the
first `N` loop iterations completing normally, `Solver.eval` raises
`MaxNodesReachedError` whose `node_counter` field equals `N` — the budget
check fires at the start of step `N + 1`, after exactly `N` completed
steps (each completed step increments `node_counter` by exactly one, from
`0`), so the run never executes more than `N` steps. -/
theorem c5_budget_termination {E W : Type} (cfg : Pyplan.Cfg E W) (N fuel : Nat)
    (args : List Nat) (w₀ : W) (sp₀ : Pyplan.SSpace)
    (snodes₀ : List (Nat × Pyplan.SNode))
    (hmax : cfg.max_nodes = some N)
    (hsol : ∀ cnt w, cfg.is_solution cnt w = false)
    (hsteps : Pyplan.steps_ok cfg N args (Pyplan.init_st w₀ sp₀ snodes₀))
    (hfuel : N < fuel) :
    Pyplan.solver_eval cfg fuel args w₀ sp₀ snodes₀
      = .error (.maxNodesReached N) := by
  have h := Pyplan.eval_loop_budget_aux cfg hsol N fuel args
    (Pyplan.init_st w₀ sp₀ snodes₀)
    (by rw [hmax]; exact congrArg some (by simp [Pyplan.init_st]))
    hsteps hfuel
  simpa [Pyplan.solver_eval, Pyplan.init_st] using h

namespace Pyplan

/-- A concrete solver configuration for exercising the budget: one domain
candidate per round, constant weight, always-passing test, never a
solution. -/
def c5cfg : Cfg Nat Unit :=
  { max_nodes := some 1
    backtrack := true
    is_solution := fun _ _ => false
    evaluator := fun _ ns _ _ => .ok (ns.map fun _ => some 5)
    test := fun _ _ _ => .ok true
    execute := fun _ _ w => .ok w
    expand := fun _ => .ok [] }

end Pyplan

/-- C5 witness: `max_nodes = 1` on a run whose single step completes —
`eval` raises `MaxNodesReachedError` with `node_counter = 1`. -/
theorem c5_budget_termination_witness :
    Pyplan.solver_eval Pyplan.c5cfg 2 [7] () (Pyplan.emptySSpace .max) []
      = .error (.maxNodesReached 1) :=
  c5_budget_termination Pyplan.c5cfg 1 2 [7] () (Pyplan.emptySSpace .max) []
    rfl (fun _ _ => rfl)
    ⟨⟨0, 7, -1, some 5, [], []⟩,
     ⟨⟨0, some ⟨0, 7, -1, some 5, [], []⟩, -1, ⟨0, 0⟩, ()⟩,
      ⟨.max, [], []⟩, [(0, ⟨0, 7, -1, some 5, [], []⟩)]⟩,
     [], by decide, trivial⟩
    (by omega)

/-- C9: if the solution predicate is true on the initial frame's read-only
namespace (`node_counter = 0`, `open_nodes_counter` = the supplied search
space's frontier size, the initial world), `Solver.eval` returns the
initial frame unchanged: `node_counter = 0`, no node selected, context =
the store's init scope.  The configuration's evaluator, test, execute and
expand capabilities are universally quantified — the result is `ok` no
matter what they do (including raising), so none of them is invoked. -/
theorem c9_immediate_solution {E W : Type} (cfg : Pyplan.Cfg E W) (fuel : Nat)
    (args : List Nat) (w₀ : W) (sp₀ : Pyplan.SSpace)
    (snodes₀ : List (Nat × Pyplan.SNode))
    (h : cfg.is_solution ⟨0, sp₀.open_nodes.length⟩ w₀ = true) :
    Pyplan.solver_eval cfg (fuel + 1) args w₀ sp₀ snodes₀
      = .ok (Pyplan.init_st w₀ sp₀ snodes₀) ∧
    (Pyplan.init_st w₀ sp₀ snodes₀).frame.node_counter = 0 ∧
    (Pyplan.init_st w₀ sp₀ snodes₀).frame.selected = none ∧
    (Pyplan.init_st w₀ sp₀ snodes₀).frame.context = Pyplan.INIT_CONTEXT_ID := by
  refine ⟨?_, rfl, rfl, rfl⟩
  simp [Pyplan.solver_eval, Pyplan.eval_loop, Pyplan.init_st, h]

namespace Pyplan

/-- A configuration whose solution predicate is immediately true and whose
other capabilities all raise if ever invoked. -/
def c9cfg : Cfg Nat Unit :=
  { max_nodes := none
    backtrack := true
    is_solution := fun _ _ => true
    evaluator := fun _ _ _ _ => .error 1
    test := fun _ _ _ => .error 2
    execute := fun _ _ _ => .error 3
    expand := fun _ => .error 4 }

end Pyplan

/-- C9 witness: with every other capability raising, `eval` still returns
the initial frame — so none of them ran. -/
theorem c9_immediate_solution_witness :
    Pyplan.solver_eval Pyplan.c9cfg 1 [0] () (Pyplan.emptySSpace .max) []
      = .ok (Pyplan.init_st () (Pyplan.emptySSpace .max) []) ∧
    (Pyplan.init_st () (Pyplan.emptySSpace .max) ([] : List (Nat × Pyplan.SNode))).frame.node_counter = 0 ∧
    (Pyplan.init_st () (Pyplan.emptySSpace .max) ([] : List (Nat × Pyplan.SNode))).frame.selected = none ∧
    (Pyplan.init_st () (Pyplan.emptySSpace .max) ([] : List (Nat × Pyplan.SNode))).frame.context = Pyplan.INIT_CONTEXT_ID :=
  c9_immediate_solution Pyplan.c9cfg 0 [0] () (Pyplan.emptySSpace .max) [] rfl

namespace Pyplan

/-- A run whose *test* capability raises the bare error `7` at the first
tested candidate (instantiated from domain node `7`). -/
def c6cfgA : Cfg Nat Unit :=
  { max_nodes := none
    backtrack := true
    is_solution := fun _ _ => false
    evaluator := fun _ ns _ _ => .ok (ns.map fun _ => some 1)
    test := fun _ _ _ => .error 7
    execute := fun _ _ w => .ok w
    expand := fun _ => .ok [] }

/-- A run whose *execute* capability raises the bare error `7` at the
selected candidate (instantiated from domain node `8`). -/
def c6cfgB : Cfg Nat Unit :=
  { max_nodes := none
    backtrack := true
    is_solution := fun _ _ => false
    evaluator := fun _ ns _ _ => .ok (ns.map fun _ => some 1)
    test := fun _ _ _ => .ok true
    execute := fun _ _ _ => .error 7
    expand := fun _ => .ok [] }

end Pyplan

/-- C6 (counterexample): two runs in which *different* capabilities (test
vs. execute) raise at *different* candidate nodes (instantiated from
domain nodes 7 resp. 8) produce byte-identical results: the bare raised
error, with no `StrategyError` wrapper — indeed no such wrapper exists
anywhere in `solver.py` — so the error reaching the caller carries no
context identifying which capability or candidate produced it. -/
theorem c6_no_strategy_error_wrapper :
    Pyplan.solver_eval Pyplan.c6cfgA 1 [7] () (Pyplan.emptySSpace .max) []
      = .error (.cap 7) ∧
    Pyplan.solver_eval Pyplan.c6cfgB 1 [8] () (Pyplan.emptySSpace .max) []
      = .error (.cap 7) ∧
    Pyplan.solver_eval Pyplan.c6cfgA 1 [7] () (Pyplan.emptySSpace .max) []
      = Pyplan.solver_eval Pyplan.c6cfgB 1 [8] () (Pyplan.emptySSpace .max) [] := by
  decide

/-- C6 (amended): an error raised by an embedder-supplied capability during
a step propagates to `eval`'s caller unmodified — the exception object
(`cap e`) reaches the caller exactly as raised, not wrapped in any
`StrategyError`. -/
theorem c6_capability_error_propagates {E W : Type} (cfg : Pyplan.Cfg E W)
    (fuel : Nat) (current : List Nat) (st : Pyplan.SolverSt W) (e : E)
    (hsol : cfg.is_solution st.frame.ro st.frame.world = false)
    (hstep : Pyplan.step cfg current st = .error (.cap e)) :
    Pyplan.eval_loop cfg (fuel + 1) current st = .error (.cap e) := by
  simp [Pyplan.eval_loop, hsol, hstep]

/-- C6 witness: the raising-test run, through the loop entry point. -/
theorem c6_capability_error_propagates_witness :
    Pyplan.eval_loop Pyplan.c6cfgA 1 [7]
        (Pyplan.init_st () (Pyplan.emptySSpace .max) [])
      = .error (.cap 7) :=
  c6_capability_error_propagates Pyplan.c6cfgA 0 [7]
    (Pyplan.init_st () (Pyplan.emptySSpace .max) []) 7 rfl (by decide)

/-- C1 (code bug, evaluated at the failing input): under the `MIN`
selector with frontier `open_nodes = [0, 1]`, `weights = [1, 2]` and a
test that fails every candidate, `select` tests node 0, closes it — which
shifts the list under the forward iterator — and then finds the iterator
exhausted: it raises `NoMoreNodesError` while node 1 is still open and was
never tested.  Under `MAX` on the same frontier (reverse traversal, where
closing the yielded entry does not disturb the remaining indices) every
open node is tested and closed before `NoMoreNodesError`, as the spec
describes for both modes. -/
theorem c1_min_select_skips_open_node :
    Pyplan.select (E := Nat) (W := Unit) (fun _ _ _ => .ok false) ⟨0, 2⟩ ()
        ⟨.min, [0, 1], [1, 2]⟩
        [(0, ⟨0, 5, -1, some 1, [], []⟩), (1, ⟨1, 6, -1, some 2, [], []⟩)]
      = (.error .noMoreNodes, ⟨.min, [1], [2]⟩) ∧
    Pyplan.select (E := Nat) (W := Unit) (fun _ _ _ => .ok false) ⟨0, 2⟩ ()
        ⟨.max, [0, 1], [1, 2]⟩
        [(0, ⟨0, 5, -1, some 1, [], []⟩), (1, ⟨1, 6, -1, some 2, [], []⟩)]
      = (.error .noMoreNodes, ⟨.max, [], []⟩) := by
  constructor
  · simp [Pyplan.select, Pyplan.selectFwdAux, Pyplan.close_node, Pyplan.bisect_left,
      Pyplan.scanFor, Pyplan.dictGet]
  · decide

